import Mathlib

/-
Verification of the fission executor's creation coordinator
(src/executor/executor.go).

The development shallowly embeds the two source functions and the
admission loop:

  * getFunctionEnv            — the environment resolver backed by the
                                10-second TTL cache (functionEnv);
  * createServiceForFunction  — environment resolution followed by the
                                EXECUTOR_BACKEND switch (pool-backed
                                default vs. the "DEPLOY" no-op branch);
  * serveCreateFuncServices   — the serial admission loop with the
                                fsCreateWg in-flight marker table, the
                                per-request creation goroutine
                                (create service; send response; delete
                                marker; wg.Done) and the per-duplicate
                                wait goroutine (wg.Wait; re-read the
                                function-service cache; send response).

External collaborators (the metadata client, the TTL cache, the pool
manager and the function-service cache fscache) are modelled from the
spec's interface section as parameters: the coordinator only transports
their results.  Concurrency is modelled as an interleaving semantics: a
scheduler picks, one at a time, either the admission loop's receive or
one atomic step of a spawned goroutine; goroutine bodies are split at
exactly the statements of the source, in source order.
-/

namespace Fission

/-- Error values surfaced by collaborators.  notFound stands for the
k8s / fscache "not found" errors; other carries any other error. -/
inductive FErr where
  | notFound
  | other (code : Nat)
deriving DecidableEq, Repr

/-- metav1.ObjectMeta restricted to the fields the executor reads:
Namespace, Name and ResourceVersion (the version marker). -/
structure ObjectMeta where
  ns : String
  name : String
  resourceVersion : String
deriving DecidableEq, Repr

/-- Modelled from the spec: crd.CacheKey derives the function identity
from namespace + name + version marker. -/
def cacheKey (m : ObjectMeta) : String :=
  m.ns ++ "_" ++ m.name ++ "_" ++ m.resourceVersion

/-- crd.Environment, kept opaque: the executor only forwards it. -/
structure Environment where
  meta : ObjectMeta
deriving DecidableEq, Repr

/-- f.Spec.Environment: the namespace+name reference stored in a
function definition. -/
structure EnvReference where
  ns : String
  name : String
deriving DecidableEq, Repr

/-- The part of crd.Function's spec the executor reads. -/
structure FunctionSpec where
  environment : EnvReference
deriving DecidableEq, Repr

/-- crd.Function: metadata plus the spec's environment reference. -/
structure FissionFunction where
  meta : ObjectMeta
  spec : FunctionSpec
deriving DecidableEq, Repr

/-- The metadata client (crd.FissionClient) as used by the executor:
Functions(ns).Get(name) and Environments(ns).Get(name). -/
structure FissionClient where
  functions : String → String → Except FErr FissionFunction
  environments : String → String → Except FErr Environment

/-- One call to the metadata client, recorded in fetch order. -/
inductive MetaCall where
  | getFunc (ns name : String)
  | getEnv (ns name : String)
deriving DecidableEq, Repr

/-- First-match association-list lookup (keys are cache-key strings). -/
def alookup {β : Type} : List (String × β) → String → Option β
  | [], _ => none
  | (k, v) :: rest, k' => if k = k' then some v else alookup rest k'

/-- An entry of the functionEnv TTL cache: the value together with its
absolute expiry instant. -/
structure CacheEntry where
  value : Environment
  expiry : Nat
deriving DecidableEq, Repr

/-- Modelled from the spec: the external TTL cache keyed by the function
identity (executor.functionEnv). -/
abbrev EnvCache : Type := List (String × CacheEntry)

/-- cache.Get: a hit is an unexpired entry; an expired or absent entry
is a miss. -/
def cacheGet (c : EnvCache) (now : Nat) (k : String) : Option Environment :=
  match alookup c k with
  | some e => if now < e.expiry then some e.value else none
  | none => none

/-- cache.Set: overwrite the key with the value and its fresh absolute
expiry. -/
def cacheSet (c : EnvCache) (k : String) (v : Environment) (expiry : Nat) : EnvCache :=
  (k, ⟨v, expiry⟩) :: (List.filter (fun p => ¬ (p.1 = k)) c)

/-- MakeExecutor fixes the functionEnv cache expiry at construction:
cache.MakeCache(10*time.Second, 0). -/
def functionEnvTTL : Nat := 10

/-- Executor.getFunctionEnv: consult the TTL cache; on a miss fetch the
function by namespace+name, then the environment it references by
namespace+name, cache the environment under the function identity and
return it; any fetch error is returned as-is with the cache untouched.
Returns the result, the cache after the call and the metadata calls
performed, in order. -/
def getFunctionEnv (client : FissionClient) (c : EnvCache) (now : Nat)
    (m : ObjectMeta) : Except FErr Environment × EnvCache × List MetaCall :=
  match cacheGet c now (cacheKey m) with
  | some env => (Except.ok env, c, [])
  | none =>
    match client.functions m.ns m.name with
    | Except.error e => (Except.error e, c, [MetaCall.getFunc m.ns m.name])
    | Except.ok f =>
      match client.environments f.spec.environment.ns f.spec.environment.name with
      | Except.error e =>
        (Except.error e, c,
          [MetaCall.getFunc m.ns m.name,
           MetaCall.getEnv f.spec.environment.ns f.spec.environment.name])
      | Except.ok env =>
        (Except.ok env, cacheSet c (cacheKey m) env (now + functionEnvTTL),
          [MetaCall.getFunc m.ns m.name,
           MetaCall.getEnv f.spec.environment.ns f.spec.environment.name])

/-- An opaque service handle (fscache.FuncSvc). -/
abbrev FuncSvc : Type := Nat

/-- An opaque pool obtained from the generic pool manager. -/
abbrev Pool : Type := Nat

/-- The pool manager as used by the executor: gpm.GetPool and
pool.GetFuncSvc. -/
structure PoolManager where
  getPool : Environment → Except FErr Pool
  getFuncSvc : Pool → ObjectMeta → Except FErr FuncSvc

/-- One call to the pool manager, recorded in order. -/
inductive BackendCall where
  | getPoolCall (env : Environment)
  | getFuncSvcCall (m : ObjectMeta)
deriving Repr

/-- The default branch of the EXECUTOR_BACKEND switch: acquire a pool
for the environment, then a specialized function service from it; any
error is propagated unchanged. -/
def poolBacked (gpm : PoolManager) (env : Environment) (m : ObjectMeta) :
    Except FErr (Option FuncSvc) × List BackendCall :=
  match gpm.getPool env with
  | Except.error e => (Except.error e, [BackendCall.getPoolCall env])
  | Except.ok pool =>
    match gpm.getFuncSvc pool m with
    | Except.error e =>
      (Except.error e, [BackendCall.getPoolCall env, BackendCall.getFuncSvcCall m])
    | Except.ok fsvc =>
      (Except.ok (some fsvc),
        [BackendCall.getPoolCall env, BackendCall.getFuncSvcCall m])

/-- The switch on the EXECUTOR_BACKEND value read at the call:
case "DEPLOY" returns (nil, nil); the default case is pool-backed. -/
def dispatchBackend (gpm : PoolManager) (backend : String) (env : Environment)
    (m : ObjectMeta) : Except FErr (Option FuncSvc) × List BackendCall :=
  if backend = "DEPLOY" then (Except.ok none, [])
  else poolBacked gpm env m

/-- Executor.createServiceForFunction: resolve the environment (an error
aborts the call), read EXECUTOR_BACKEND — the backend argument models the
os.Getenv value at this call — and dispatch on it.  Returns the result,
the cache after the call, and the metadata and backend calls made. -/
def createServiceForFunction (client : FissionClient) (gpm : PoolManager)
    (backend : String) (c : EnvCache) (now : Nat) (m : ObjectMeta) :
    Except FErr (Option FuncSvc) × EnvCache × List MetaCall × List BackendCall :=
  match getFunctionEnv client c now m with
  | (Except.error e, c1, mcalls) => (Except.error e, c1, mcalls, [])
  | (Except.ok env, c1, mcalls) =>
    match dispatchBackend gpm backend env m with
    | (r, bcalls) => (r, c1, mcalls, bcalls)

/-
The admission loop (serveCreateFuncServices) and the goroutines it
spawns, as an interleaving state machine.

At this level the whole creation pipeline of one request
(createServiceForFunction) is abstracted by an outcome oracle indexed by
the creation's serial number: poolOutcome (the pool path returned a
handle and, as a side effect, registered it in the function-service
cache), deployOutcome (the DEPLOY branch's nil, nil — nothing is
registered), or failOutcome (the pipeline returned an error).  A
successful creation's handle is its serial number, so handles of
distinct creations are distinct by construction.
-/

/-- Outcome of one run of the creation pipeline. -/
inductive PipeOutcome where
  | poolOutcome
  | deployOutcome
  | failOutcome (e : FErr)
deriving DecidableEq, Repr

/-- createFuncServiceResponse: the pair sent on a request's respChan. -/
structure FuncServiceResponse where
  funcSvc : Option Nat
  err : Option FErr
deriving DecidableEq, Repr

/-- createFuncServiceRequest: the function metadata plus (implicitly)
its private response conduit, identified here by rid. -/
structure FuncServiceRequest where
  rid : Nat
  funcMeta : ObjectMeta
deriving DecidableEq, Repr

/-- Program counter of a spawned goroutine.  A creation goroutine runs
crRun (createServiceForFunction), crRespond (send on respChan),
crDelete (delete the fsCreateWg entry), crDone (wg.Done), in this
order; a wait goroutine runs wWait (wg.Wait) then wRespond
(fsCache.GetByFunction and send on respChan).  The phase names the next
statement to execute. -/
inductive Phase where
  | crRun
  | crRespond
  | crDelete
  | crDone
  | wWait
  | wRespond
  | finished
deriving DecidableEq, Repr

/-- A spawned goroutine: the request it serves, its function identity
key, the WaitGroup generation it holds or waits on, its kind, the
response it computed (creation goroutines, valid from crRespond on) and
its program counter. -/
structure GoTask where
  rid : Nat
  key : String
  gen : Nat
  isCreate : Bool
  resp : FuncServiceResponse
  phase : Phase
deriving DecidableEq, Repr

/-- The coordinator state: requests submitted on requestChan but not
yet received; the fsCreateWg marker table (key to WaitGroup
generation); the spawned goroutines; the set of generations whose
wg.Done has fired; the external function-service cache (key to handle);
the next fresh generation number; and the log of responses delivered to
the per-request conduits. -/
structure CoordState where
  pending : List FuncServiceRequest
  markers : List (String × Nat)
  tasks : List GoTask
  doneGens : List Nat
  registry : List (String × Nat)
  nextGen : Nat
  delivered : List (Nat × FuncServiceResponse)
deriving DecidableEq, Repr

/-- Overwrite a key in the function-service registry. -/
def rset (reg : List (String × Nat)) (k : String) (v : Nat) : List (String × Nat) :=
  (k, v) :: List.filter (fun p => ¬ (p.1 = k)) reg

/-- Remove a key from the marker table (delete(executor.fsCreateWg, key),
unconditional on which generation holds the key). -/
def mErase (ms : List (String × Nat)) (k : String) : List (String × Nat) :=
  List.filter (fun p => ¬ (p.1 = k)) ms

/-- fscache.GetByFunction: look the function identity up in the external
function-service cache; absence is an error, never an empty success. -/
def getByFunction (reg : List (String × Nat)) (k : String) : FuncServiceResponse :=
  match alookup reg k with
  | some h => ⟨some h, none⟩
  | none => ⟨none, some FErr.notFound⟩

/-- Effect of one run of the creation pipeline with serial number g on
key k: the response for the requester and the registry afterwards. -/
def runCreation (orc : Nat → PipeOutcome) (g : Nat) (k : String)
    (reg : List (String × Nat)) : FuncServiceResponse × List (String × Nat) :=
  match orc g with
  | PipeOutcome.poolOutcome => (⟨some g, none⟩, rset reg k g)
  | PipeOutcome.deployOutcome => (⟨none, none⟩, reg)
  | PipeOutcome.failOutcome e => (⟨none, some e⟩, reg)

/-- One iteration of serveCreateFuncServices: receive the next request;
if no fsCreateWg entry exists for its key, install a fresh WaitGroup
generation and spawn a creation goroutine; otherwise spawn a wait
goroutine bound to the existing entry's generation.  Nothing else
happens on the admission path. -/
def serveCreateFuncServices (s : CoordState) : CoordState :=
  match s.pending with
  | [] => s
  | r :: rest =>
    let k := cacheKey r.funcMeta
    match alookup s.markers k with
    | some g =>
      { s with pending := rest,
               tasks := s.tasks ++ [⟨r.rid, k, g, false, ⟨none, none⟩, Phase.wWait⟩] }
    | none =>
      { s with pending := rest,
               markers := (k, s.nextGen) :: s.markers,
               tasks := s.tasks ++ [⟨r.rid, k, s.nextGen, true, ⟨none, none⟩, Phase.crRun⟩],
               nextGen := s.nextGen + 1 }

/-- One atomic statement of the goroutine stored at index i, following
the source order of the two goroutine bodies.  wWait is enabled only
once the generation's wg.Done has fired; every other statement is
always enabled.  An index without a goroutine, or a finished goroutine,
leaves the state unchanged. -/
def stepTask (orc : Nat → PipeOutcome) (s : CoordState) (i : Nat) : CoordState :=
  match s.tasks[i]? with
  | none => s
  | some t =>
    match t.phase with
    | Phase.crRun =>
      let rr := runCreation orc t.gen t.key s.registry
      { s with registry := rr.2,
               tasks := s.tasks.set i { t with resp := rr.1, phase := Phase.crRespond } }
    | Phase.crRespond =>
      { s with delivered := s.delivered ++ [(t.rid, t.resp)],
               tasks := s.tasks.set i { t with phase := Phase.crDelete } }
    | Phase.crDelete =>
      { s with markers := mErase s.markers t.key,
               tasks := s.tasks.set i { t with phase := Phase.crDone } }
    | Phase.crDone =>
      { s with doneGens := t.gen :: s.doneGens,
               tasks := s.tasks.set i { t with phase := Phase.finished } }
    | Phase.wWait =>
      if t.gen ∈ s.doneGens then
        { s with tasks := s.tasks.set i { t with phase := Phase.wRespond } }
      else s
    | Phase.wRespond =>
      { s with delivered := s.delivered ++ [(t.rid, getByFunction s.registry t.key)],
               tasks := s.tasks.set i { t with phase := Phase.finished } }
    | Phase.finished => s

/-- A scheduler choice: let the admission loop receive one request, or
run one statement of the goroutine at index i. -/
inductive Choice where
  | recvReq
  | runTask (i : Nat)
deriving DecidableEq, Repr

/-- One scheduled step. -/
def coordStep (orc : Nat → PipeOutcome) : Choice → CoordState → CoordState
  | Choice.recvReq, s => serveCreateFuncServices s
  | Choice.runTask i, s => stepTask orc s i

/-- Run a whole schedule. -/
def coordExec (orc : Nat → PipeOutcome) (sched : List Choice) (s : CoordState) :
    CoordState :=
  sched.foldl (fun s c => coordStep orc c s) s

/-- The state right after MakeExecutor, with the given requests already
submitted on requestChan. -/
def initState (reqs : List FuncServiceRequest) : CoordState :=
  ⟨reqs, [], [], [], [], 0, []⟩

/-
Concrete fixtures used by witnesses and by the concrete race traces.
-/

/-- A concrete function identity. -/
def demoMeta : ObjectMeta := ⟨"default", "f1", "v1"⟩

/-- A concrete environment definition. -/
def demoEnv : Environment := ⟨⟨"default", "nodejs", "v7"⟩⟩

/-- A concrete function definition referencing demoEnv. -/
def demoFunction : FissionFunction := ⟨demoMeta, ⟨⟨"default", "nodejs"⟩⟩⟩

/-- A metadata client on which every fetch succeeds. -/
def demoClient : FissionClient :=
  ⟨fun _ _ => Except.ok demoFunction, fun _ _ => Except.ok demoEnv⟩

/-- A metadata client on which the function fetch fails. -/
def failingClient : FissionClient :=
  ⟨fun _ _ => Except.error (FErr.other 3), fun _ _ => Except.ok demoEnv⟩

/-- A pool manager on which both calls succeed. -/
def demoGpm : PoolManager :=
  ⟨fun _ => Except.ok 5, fun _ _ => Except.ok 42⟩

/-
Supporting lemmas about the TTL cache model.
-/

/-- A freshly set key is a hit before its expiry. -/
theorem cacheGet_cacheSet_self (c : EnvCache) (k : String) (v : Environment)
    (expiry later : Nat) (h : later < expiry) :
    cacheGet (cacheSet c k v expiry) later k = some v := by
  simp [cacheGet, cacheSet, alookup, h]

/-- A key absent from the cache is a miss at every instant. -/
theorem cacheGet_of_alookup_none (c : EnvCache) (k : String) (now : Nat)
    (h : alookup c k = none) : cacheGet c now k = none := by
  simp [cacheGet, h]

/-- C6: on a cache hit the resolver returns the cached environment with
no metadata fetch and an unchanged cache; on a miss it fetches the
function by namespace+name, then the environment the function
references by namespace+name, stores the environment under the function
identity with the fixed expiry and returns it; and a second resolution
for the same identity within the expiry window performs no fetch and
returns the cached value, so the window sees at most one two-step
fetch. -/
theorem resolver_single_fetch_per_window (client : FissionClient) (c : EnvCache)
    (now later : Nat) (m : ObjectMeta) (env : Environment) (f : FissionFunction) :
    (cacheGet c now (cacheKey m) = some env →
      getFunctionEnv client c now m = (Except.ok env, c, [])) ∧
    (cacheGet c now (cacheKey m) = none →
      client.functions m.ns m.name = Except.ok f →
      client.environments f.spec.environment.ns f.spec.environment.name =
        Except.ok env →
      getFunctionEnv client c now m =
        (Except.ok env, cacheSet c (cacheKey m) env (now + functionEnvTTL),
          [MetaCall.getFunc m.ns m.name,
           MetaCall.getEnv f.spec.environment.ns f.spec.environment.name]) ∧
      (later < now + functionEnvTTL →
        getFunctionEnv client (cacheSet c (cacheKey m) env (now + functionEnvTTL))
            later m =
          (Except.ok env, cacheSet c (cacheKey m) env (now + functionEnvTTL), []))) := by
  refine ⟨fun h => ?_, fun h hf he => ⟨?_, fun hl => ?_⟩⟩
  · simp [getFunctionEnv, h]
  · simp [getFunctionEnv, h, hf, he]
  · have hc := cacheGet_cacheSet_self c (cacheKey m) env (now + functionEnvTTL) later hl
    simp [getFunctionEnv, hc]

/-- C6 witness: a hit, a miss and a within-window re-resolution on the
concrete client. -/
theorem resolver_single_fetch_per_window_witness :
    cacheGet [] 0 (cacheKey demoMeta) = none ∧
    demoClient.functions demoMeta.ns demoMeta.name = Except.ok demoFunction ∧
    demoClient.environments demoFunction.spec.environment.ns
        demoFunction.spec.environment.name = Except.ok demoEnv ∧
    ((3 : Nat) < 0 + functionEnvTTL) ∧
    (getFunctionEnv demoClient [] 0 demoMeta =
      (Except.ok demoEnv, cacheSet [] (cacheKey demoMeta) demoEnv (0 + functionEnvTTL),
        [MetaCall.getFunc demoMeta.ns demoMeta.name,
         MetaCall.getEnv demoFunction.spec.environment.ns
           demoFunction.spec.environment.name]) ∧
      getFunctionEnv demoClient
          (cacheSet [] (cacheKey demoMeta) demoEnv (0 + functionEnvTTL)) 3 demoMeta =
        (Except.ok demoEnv, cacheSet [] (cacheKey demoMeta) demoEnv (0 + functionEnvTTL),
          [])) := by
  refine ⟨rfl, rfl, rfl, by decide, ?_, ?_⟩
  · exact (((resolver_single_fetch_per_window demoClient [] 0 3 demoMeta demoEnv
      demoFunction).2 rfl rfl rfl).1)
  · exact (((resolver_single_fetch_per_window demoClient [] 0 3 demoMeta demoEnv
      demoFunction).2 rfl rfl rfl).2 (by decide))

/-- C7: a failing function fetch, or a failing environment fetch,
aborts the resolution with that very error and leaves the cache
untouched; and with the key absent from the cache a later call issues
the function fetch again (no negative caching). -/
theorem resolver_failure_not_cached (client : FissionClient) (c : EnvCache)
    (now later : Nat) (m : ObjectMeta) (e : FErr) (f : FissionFunction) :
    (cacheGet c now (cacheKey m) = none →
      client.functions m.ns m.name = Except.error e →
      getFunctionEnv client c now m =
        (Except.error e, c, [MetaCall.getFunc m.ns m.name])) ∧
    (cacheGet c now (cacheKey m) = none →
      client.functions m.ns m.name = Except.ok f →
      client.environments f.spec.environment.ns f.spec.environment.name =
        Except.error e →
      getFunctionEnv client c now m =
        (Except.error e, c,
          [MetaCall.getFunc m.ns m.name,
           MetaCall.getEnv f.spec.environment.ns f.spec.environment.name])) ∧
    (alookup c (cacheKey m) = none →
      (getFunctionEnv client c later m).2.2.head? =
        some (MetaCall.getFunc m.ns m.name)) := by
  refine ⟨fun h hf => ?_, fun h hf he => ?_, fun habs => ?_⟩
  · simp [getFunctionEnv, h, hf]
  · simp [getFunctionEnv, h, hf, he]
  · have h0 := cacheGet_of_alookup_none c (cacheKey m) later habs
    cases hf : client.functions m.ns m.name with
    | error e0 => simp [getFunctionEnv, h0, hf]
    | ok f0 =>
      cases he : client.environments f0.spec.environment.ns
          f0.spec.environment.name with
      | error e0 => simp [getFunctionEnv, h0, hf, he]
      | ok env0 => simp [getFunctionEnv, h0, hf, he]

/-- C7 witness: the failing client at the empty cache. -/
theorem resolver_failure_not_cached_witness :
    cacheGet [] 0 (cacheKey demoMeta) = none ∧
    failingClient.functions demoMeta.ns demoMeta.name =
      Except.error (FErr.other 3) ∧
    alookup ([] : EnvCache) (cacheKey demoMeta) = none ∧
    (getFunctionEnv failingClient [] 0 demoMeta =
      (Except.error (FErr.other 3), [], [MetaCall.getFunc demoMeta.ns demoMeta.name]) ∧
    (getFunctionEnv failingClient [] 1 demoMeta).2.2.head? =
      some (MetaCall.getFunc demoMeta.ns demoMeta.name)) := by
  refine ⟨rfl, rfl, rfl, ?_, ?_⟩
  · exact (resolver_failure_not_cached failingClient [] 0 1 demoMeta (FErr.other 3)
      demoFunction).1 rfl rfl
  · exact (resolver_failure_not_cached failingClient [] 0 1 demoMeta (FErr.other 3)
      demoFunction).2.2 rfl

/-- C8 counterexample: the EXECUTOR_BACKEND value is read again on every
createServiceForFunction call, so two calls in the same process state
observe different strategies when the configuration source changed in
between: with the variable empty the pool manager is consulted, with
the value DEPLOY the call is a no-op — refuting selection once at
construction. -/
theorem strategy_reread_each_call_cex :
    (createServiceForFunction demoClient demoGpm "" [] 0 demoMeta).1 =
      Except.ok (some 42) ∧
    (createServiceForFunction demoClient demoGpm "" [] 0 demoMeta).2.2.2 =
      [BackendCall.getPoolCall demoEnv, BackendCall.getFuncSvcCall demoMeta] ∧
    (createServiceForFunction demoClient demoGpm "DEPLOY" [] 0 demoMeta).1 =
      Except.ok none ∧
    (createServiceForFunction demoClient demoGpm "DEPLOY" [] 0 demoMeta).2.2.2 = [] :=
  ⟨rfl, rfl, rfl, rfl⟩

/-- C8 amended: the strategy is re-determined at each call from the
EXECUTOR_BACKEND value read at that call; whenever environment
resolution succeeds, the pool manager is consulted exactly when that
per-call value differs from DEPLOY, so two calls observe the same
strategy whenever the configuration value is unchanged between them,
and only then. -/
theorem strategy_function_of_call_time_value (client : FissionClient)
    (gpm : PoolManager) (b : String) (c c1 : EnvCache) (now : Nat) (m : ObjectMeta)
    (env : Environment) (mc : List MetaCall)
    (h : getFunctionEnv client c now m = (Except.ok env, c1, mc)) :
    ((createServiceForFunction client gpm b c now m).2.2.2 ≠ [] ↔ b ≠ "DEPLOY") ∧
    (b = "DEPLOY" →
      (createServiceForFunction client gpm b c now m).1 = Except.ok none) ∧
    (b ≠ "DEPLOY" →
      (createServiceForFunction client gpm b c now m).1 = (poolBacked gpm env m).1) := by
  by_cases hb : b = "DEPLOY"
  · subst hb
    simp [createServiceForFunction, h, dispatchBackend]
  · have hd : dispatchBackend gpm b env m = poolBacked gpm env m := by
      simp [dispatchBackend, hb]
    refine ⟨?_, fun hc => absurd hc hb, fun _ => ?_⟩
    · simp only [createServiceForFunction, h, hd]
      constructor
      · intro _; exact hb
      · intro _
        cases hp : gpm.getPool env with
        | error e => simp [poolBacked, hp]
        | ok p =>
          cases hq : gpm.getFuncSvc p m with
          | error e => simp [poolBacked, hp, hq]
          | ok v => simp [poolBacked, hp, hq]
    · simp [createServiceForFunction, h, hd]

/-- C8 amended witness: the concrete deps at backend value DEPLOY. -/
theorem strategy_function_of_call_time_value_witness :
    getFunctionEnv demoClient [] 0 demoMeta =
      (Except.ok demoEnv, cacheSet [] (cacheKey demoMeta) demoEnv (0 + functionEnvTTL),
        [MetaCall.getFunc demoMeta.ns demoMeta.name,
         MetaCall.getEnv demoFunction.spec.environment.ns
           demoFunction.spec.environment.name]) ∧
    (((createServiceForFunction demoClient demoGpm "DEPLOY" [] 0 demoMeta).2.2.2 ≠ []
        ↔ "DEPLOY" ≠ "DEPLOY") ∧
      ("DEPLOY" = "DEPLOY" →
        (createServiceForFunction demoClient demoGpm "DEPLOY" [] 0 demoMeta).1 =
          Except.ok none) ∧
      ("DEPLOY" ≠ "DEPLOY" →
        (createServiceForFunction demoClient demoGpm "DEPLOY" [] 0 demoMeta).1 =
          (poolBacked demoGpm demoEnv demoMeta).1)) :=
  ⟨rfl, strategy_function_of_call_time_value demoClient demoGpm "DEPLOY" []
    (cacheSet [] (cacheKey demoMeta) demoEnv (0 + functionEnvTTL)) 0 demoMeta demoEnv
    [MetaCall.getFunc demoMeta.ns demoMeta.name,
     MetaCall.getEnv demoFunction.spec.environment.ns
       demoFunction.spec.environment.name] rfl⟩

/-- C9: with the backend value DEPLOY the dispatch returns the literal
empty success — a nil handle and a nil error — for every pool manager,
identity and environment, without consulting the pool manager; and the
whole createServiceForFunction call does the same whenever environment
resolution succeeds. -/
theorem deploy_backend_returns_empty_success (gpm : PoolManager) (env : Environment)
    (m : ObjectMeta) (client : FissionClient) (c c1 : EnvCache) (now : Nat)
    (mc : List MetaCall) :
    dispatchBackend gpm "DEPLOY" env m = (Except.ok none, []) ∧
    (getFunctionEnv client c now m = (Except.ok env, c1, mc) →
      createServiceForFunction client gpm "DEPLOY" c now m =
        (Except.ok none, c1, mc, [])) := by
  constructor
  · simp [dispatchBackend]
  · intro h
    simp [createServiceForFunction, h, dispatchBackend]

/-- C9 witness: the deploy branch on the concrete deps. -/
theorem deploy_backend_returns_empty_success_witness :
    getFunctionEnv demoClient [] 0 demoMeta =
      (Except.ok demoEnv, cacheSet [] (cacheKey demoMeta) demoEnv (0 + functionEnvTTL),
        [MetaCall.getFunc demoMeta.ns demoMeta.name,
         MetaCall.getEnv demoFunction.spec.environment.ns
           demoFunction.spec.environment.name]) ∧
    (dispatchBackend demoGpm "DEPLOY" demoEnv demoMeta = (Except.ok none, []) ∧
      createServiceForFunction demoClient demoGpm "DEPLOY" [] 0 demoMeta =
        (Except.ok none, cacheSet [] (cacheKey demoMeta) demoEnv (0 + functionEnvTTL),
          [MetaCall.getFunc demoMeta.ns demoMeta.name,
           MetaCall.getEnv demoFunction.spec.environment.ns
             demoFunction.spec.environment.name], [])) := by
  have h := deploy_backend_returns_empty_success demoGpm demoEnv demoMeta demoClient []
    (cacheSet [] (cacheKey demoMeta) demoEnv (0 + functionEnvTTL)) 0
    [MetaCall.getFunc demoMeta.ns demoMeta.name,
     MetaCall.getEnv demoFunction.spec.environment.ns
       demoFunction.spec.environment.name]
  exact ⟨rfl, h.1, h.2 rfl⟩

/-- C10: every backend value other than the exact string DEPLOY — the
empty string of an unset variable and any misspelling included —
silently selects the pool-backed branch: the dispatch equals the pool
path and its first action is to consult the pool manager, so no
configuration error is raised. -/
theorem non_deploy_values_select_pool (gpm : PoolManager) (env : Environment)
    (m : ObjectMeta) (b : String) (h : b ≠ "DEPLOY") :
    dispatchBackend gpm b env m = poolBacked gpm env m ∧
    (dispatchBackend gpm b env m).2.head? = some (BackendCall.getPoolCall env) := by
  have hd : dispatchBackend gpm b env m = poolBacked gpm env m := by
    simp [dispatchBackend, h]
  refine ⟨hd, ?_⟩
  rw [hd]
  cases hp : gpm.getPool env with
  | error e => simp [poolBacked, hp]
  | ok p =>
    cases hq : gpm.getFuncSvc p m with
    | error e => simp [poolBacked, hp, hq]
    | ok v => simp [poolBacked, hp, hq]

/-- C10 witness: the unset variable (empty string) selects the pool
path on the concrete deps. -/
theorem non_deploy_values_select_pool_witness :
    ("" ≠ "DEPLOY") ∧
    (dispatchBackend demoGpm "" demoEnv demoMeta = poolBacked demoGpm demoEnv demoMeta ∧
      (dispatchBackend demoGpm "" demoEnv demoMeta).2.head? =
        some (BackendCall.getPoolCall demoEnv)) :=
  ⟨by decide, non_deploy_values_select_pool demoGpm demoEnv demoMeta "" (by decide)⟩

/-
Concrete interleavings exhibiting the marker-release race: the creation
goroutine deletes the fsCreateWg entry and fires wg.Done as two
separate statements, off the admission goroutine, so a request received
in between is classified as a fresh miss.
-/

/-- An outcome oracle on which every creation pipeline succeeds through
the pool. -/
def raceOrc : Nat → PipeOutcome := fun _ => PipeOutcome.poolOutcome

/-- Two requests for the same function identity. -/
def raceReqs2 : List FuncServiceRequest := [⟨1, demoMeta⟩, ⟨2, demoMeta⟩]

/-- Three requests for the same function identity. -/
def raceReqs3 : List FuncServiceRequest := [⟨1, demoMeta⟩, ⟨2, demoMeta⟩, ⟨3, demoMeta⟩]

/-- Schedule: receive the first request, run its creation goroutine up
to and including the marker delete (but not wg.Done), then receive the
second request. -/
def c1SchedPrefix : List Choice :=
  [Choice.recvReq, Choice.runTask 0, Choice.runTask 0, Choice.runTask 0,
   Choice.recvReq]

/-- The same schedule, completed: both goroutines run to the end. -/
def c1SchedFull : List Choice :=
  c1SchedPrefix ++ [Choice.runTask 1, Choice.runTask 1, Choice.runTask 1,
                    Choice.runTask 1, Choice.runTask 0]

/-- C1 (violated by the code): under the schedule c1SchedFull, two
requests for one function identity — the second received by the
admission loop while the first creation's release signal (wg.Done) has
not yet fired — start two creation pipelines for that identity, and the
two requesters receive handles of two different creations of the same
key. -/
theorem race_second_pipeline_same_key :
    ((coordExec raceOrc c1SchedPrefix (initState raceReqs2)).pending = [] ∧
     (coordExec raceOrc c1SchedPrefix (initState raceReqs2)).doneGens = [] ∧
     ((coordExec raceOrc c1SchedPrefix (initState raceReqs2)).tasks.filter
        (fun t => t.isCreate && (t.key == cacheKey demoMeta))).length = 2) ∧
    (((coordExec raceOrc c1SchedFull (initState raceReqs2)).tasks.filter
        (fun t => t.isCreate && (t.key == cacheKey demoMeta))).length = 2 ∧
     (coordExec raceOrc c1SchedFull (initState raceReqs2)).delivered =
       [(1, ⟨some 0, none⟩), (2, ⟨some 1, none⟩)]) := by
  decide

/-- Schedule: first request (miss), second request (duplicate — it
becomes a waiter), then the first creation goroutine up to and
including the marker delete, stopping right before wg.Done. -/
def c2SchedPrefix : List Choice :=
  [Choice.recvReq, Choice.recvReq, Choice.runTask 0, Choice.runTask 0,
   Choice.runTask 0]

/-- C2 (violated by the code): after c2SchedPrefix the marker is
already removed while the release signal has not yet fired and a waiter
is still blocked; a request received in exactly this gap is classified
as a fresh miss and spawns a second creation goroutine — marker removal
and waiter signalling are not one indivisible transition with respect
to admissions. -/
theorem admission_in_delete_done_gap :
    ((coordExec raceOrc c2SchedPrefix (initState raceReqs3)).markers = [] ∧
     (coordExec raceOrc c2SchedPrefix (initState raceReqs3)).doneGens = [] ∧
     (coordExec raceOrc c2SchedPrefix (initState raceReqs3)).tasks[1]? =
       some ⟨2, cacheKey demoMeta, 0, false, ⟨none, none⟩, Phase.wWait⟩) ∧
    (coordStep raceOrc Choice.recvReq
        (coordExec raceOrc c2SchedPrefix (initState raceReqs3))).tasks[2]? =
      some ⟨3, cacheKey demoMeta, 1, true, ⟨none, none⟩, Phase.crRun⟩ := by
  decide

/-
Generic list helpers used by the coordinator invariants.
-/

/-- A successful association-list lookup is a membership. -/
theorem alookup_mem {β : Type} :
    ∀ (l : List (String × β)) (k : String) (v : β),
      alookup l k = some v → (k, v) ∈ l
  | [], k, v, h => by simp [alookup] at h
  | (k0, v0) :: rest, k, v, h => by
    by_cases hk : k0 = k
    · subst hk
      simp [alookup] at h
      simp [h]
    · simp only [alookup, if_neg hk] at h
      exact List.mem_cons_of_mem _ (alookup_mem rest k v h)

/-- Indexing into the left part of an append. -/
theorem getq_append_left {α : Type} (l l2 : List α) (j : Nat) (a : α)
    (h : l[j]? = some a) : (l ++ l2)[j]? = some a := by
  have hj : j < l.length := (List.getElem?_eq_some.1 h).1
  rw [List.getElem?_append, if_pos hj]
  exact h

/-- Indexing into an append of a singleton: either the old list or the
new final element. -/
theorem getq_append_cases {α : Type} (l : List α) (w a : α) (j : Nat)
    (h : (l ++ [w])[j]? = some a) : l[j]? = some a ∨ (j = l.length ∧ a = w) := by
  rw [List.getElem?_append] at h
  by_cases hj : j < l.length
  · rw [if_pos hj] at h
    exact Or.inl h
  · rw [if_neg hj] at h
    cases hd : j - l.length with
    | zero =>
      rw [hd] at h
      simp at h
      exact Or.inr ⟨by omega, h.symm⟩
    | succ n =>
      rw [hd] at h
      simp at h

/-- Setting an index to the value it already holds is the identity. -/
theorem set_same {α : Type} :
    ∀ (l : List α) (i : Nat) (b : α), l[i]? = some b → l.set i b = l
  | [], _, _, h => by simp at h
  | a :: l, 0, b, h => by
    simp at h
    simp [List.set, h]
  | a :: l, i + 1, b, h => by
    simp at h
    simp [List.set, set_same l i b h]

/-- How countP changes under a single-index update. -/
theorem countP_set {α : Type} (p : α → Bool) :
    ∀ (l : List α) (i : Nat) (a b : α), l[i]? = some b →
      (l.set i a).countP p + (if p b then 1 else 0) =
        l.countP p + (if p a then 1 else 0)
  | [], _, _, _, h => by simp at h
  | x :: l, 0, a, b, h => by
    simp at h
    subst h
    simp [List.set, List.countP_cons]
    omega
  | x :: l, i + 1, a, b, h => by
    simp at h
    have ih := countP_set p l i a b h
    simp [List.set, List.countP_cons]
    omega

/-- How the sum of a map changes under a single-index update. -/
theorem summap_set {α : Type} (f : α → Nat) :
    ∀ (l : List α) (i : Nat) (a b : α), l[i]? = some b →
      ((l.set i a).map f).sum + f b = (l.map f).sum + f a
  | [], _, _, _, h => by simp at h
  | x :: l, 0, a, b, h => by
    simp at h
    subst h
    show ((a :: l).map f).sum + f x = ((x :: l).map f).sum + f a
    simp only [List.map_cons, List.sum_cons]
    omega
  | x :: l, i + 1, a, b, h => by
    simp at h
    have ih := summap_set f l i a b h
    show ((x :: l.set i a).map f).sum + f b = ((x :: l).map f).sum + f a
    simp only [List.map_cons, List.sum_cons]
    omega

/-- Two indices carrying values with equal images under an injective
enumeration (a Nodup map) coincide. -/
theorem nodup_map_index_inj {α β : Type} (f : α → β) (l : List α)
    (hnd : (l.map f).Nodup) (i j : Nat) (a b : α)
    (ha : l[i]? = some a) (hb : l[j]? = some b) (hf : f a = f b) : i = j := by
  have hi : i < (l.map f).length := by
    rw [List.length_map]
    exact (List.getElem?_eq_some.1 ha).1
  apply List.getElem?_inj hi hnd
  rw [List.getElem?_map, List.getElem?_map, ha, hb]
  simp [hf]

/-
The coordinator invariants backing C3, C4 and C5.
-/

/-- Whether a goroutine has already executed its send on respChan:
a creation goroutine sends before deleting the marker, a wait goroutine
sends as its last statement. -/
def RespondedB (t : GoTask) : Bool :=
  match t.isCreate, t.phase with
  | true, Phase.crDelete => true
  | true, Phase.crDone => true
  | true, Phase.finished => true
  | false, Phase.finished => true
  | _, _ => false

/-- Statements a goroutine still has to execute. -/
def remTask (t : GoTask) : Nat :=
  match t.phase with
  | Phase.crRun => 4
  | Phase.crRespond => 3
  | Phase.crDelete => 2
  | Phase.crDone => 1
  | Phase.wWait => 2
  | Phase.wRespond => 1
  | Phase.finished => 0

/-- Remaining work: pending receives weigh more than any single
goroutine's remaining statements. -/
def coordMeasure (s : CoordState) : Nat :=
  5 * s.pending.length + (s.tasks.map remTask).sum

/-- A state in which every submitted request has been received and
every spawned goroutine has run to completion. -/
def CompleteState (s : CoordState) : Prop :=
  s.pending = [] ∧ ∀ t ∈ s.tasks, t.phase = Phase.finished

/-- Responses delivered to the conduit of request rid. -/
def deliveredCount (s : CoordState) (rid : Nat) : Nat :=
  s.delivered.countP (fun p => p.1 == rid)

/-- Goroutines serving request rid that have already sent their
response. -/
def respondedCount (s : CoordState) (rid : Nat) : Nat :=
  s.tasks.countP (fun t => t.rid == rid && RespondedB t)

/-- The inductive invariant of the coordinator:
deliv — a conduit holds exactly the sends of its request's goroutines;
ridPerm — requests are conserved: every submitted request is either
still pending or served by exactly the goroutines carrying its rid;
markerLive — every fsCreateWg entry is held by a live creation
goroutine that has not yet executed its delete;
waitLive — a blocked waiter's generation is either already signalled or
held by an unfinished creation goroutine;
kindPhase — creation goroutines run creation statements, wait
goroutines wait statements. -/
structure CoordInv (reqs : List FuncServiceRequest) (s : CoordState) : Prop where
  deliv : ∀ rid : Nat, deliveredCount s rid = respondedCount s rid
  ridPerm : (s.pending.map FuncServiceRequest.rid ++ s.tasks.map GoTask.rid).Perm
    (reqs.map FuncServiceRequest.rid)
  markerLive : ∀ p ∈ s.markers, ∃ (j : Nat) (t : GoTask),
    s.tasks[j]? = some t ∧ t.isCreate = true ∧
    t.key = p.1 ∧ t.gen = p.2 ∧
    (t.phase = Phase.crRun ∨ t.phase = Phase.crRespond ∨ t.phase = Phase.crDelete)
  waitLive : ∀ (j : Nat) (t : GoTask), s.tasks[j]? = some t → t.isCreate = false →
    t.phase = Phase.wWait →
    t.gen ∈ s.doneGens ∨ ∃ (j2 : Nat) (t2 : GoTask),
      s.tasks[j2]? = some t2 ∧ t2.isCreate = true ∧
      t2.gen = t.gen ∧ t2.phase ≠ Phase.finished
  kindPhase : ∀ (j : Nat) (t : GoTask), s.tasks[j]? = some t →
    (t.isCreate = true → t.phase ≠ Phase.wWait ∧ t.phase ≠ Phase.wRespond) ∧
    (t.isCreate = false →
      t.phase = Phase.wWait ∨ t.phase = Phase.wRespond ∨ t.phase = Phase.finished)

/-- The initial state satisfies the invariant. -/
theorem coordInv_init (reqs : List FuncServiceRequest) :
    CoordInv reqs (initState reqs) := by
  refine ⟨?_, ?_, ?_, ?_, ?_⟩
  · intro rid
    simp [deliveredCount, respondedCount, initState]
  · simp [initState]
  · intro p hp
    simp [initState] at hp
  · intro j t ht
    simp [initState] at ht
  · intro j t ht
    simp [initState] at ht

/-- Indexing into a single-index update: the updated index or an
untouched one. -/
theorem getq_set_cases {α : Type} (l : List α) (i j : Nat) (a u : α)
    (hi : i < l.length) (h : (l.set i a)[j]? = some u) :
    (j = i ∧ u = a) ∨ (j ≠ i ∧ l[j]? = some u) := by
  by_cases hj : j = i
  · subst hj
    rw [List.getElem?_set_eq_of_lt a hi] at h
    cases h
    exact Or.inl ⟨rfl, rfl⟩
  · rw [List.getElem?_set_ne (fun hh => hj hh.symm)] at h
    exact Or.inr ⟨hj, h⟩

/-- A pre-delete phase is not the finished phase. -/
theorem pre_delete_ne_finished {ph : Phase}
    (h : ph = Phase.crRun ∨ ph = Phase.crRespond ∨ ph = Phase.crDelete) :
    ph ≠ Phase.finished := by
  rcases h with h | h | h <;> simp [h]

/-- Updating a goroutine without sending keeps every conduit count. -/
theorem respondedCount_set_same (s : CoordState) (i : Nat) (t t' : GoTask)
    (hti : s.tasks[i]? = some t) (hrid : t'.rid = t.rid)
    (hsame : RespondedB t' = RespondedB t) (rid : Nat) :
    (s.tasks.set i t').countP (fun u => u.rid == rid && RespondedB u) =
      s.tasks.countP (fun u => u.rid == rid && RespondedB u) := by
  have hc := countP_set (fun u => u.rid == rid && RespondedB u) s.tasks i t' t hti
  simp only [hrid, hsame] at hc
  exact Nat.add_right_cancel hc

/-- Sending the response: the conduit count and the responded count grow
together. -/
theorem deliv_step_send (s : CoordState) (i : Nat) (t t' : GoTask)
    (r : FuncServiceResponse) (hti : s.tasks[i]? = some t) (hrid : t'.rid = t.rid)
    (hf : RespondedB t = false) (htr : RespondedB t' = true)
    (hd : ∀ rid : Nat, deliveredCount s rid = respondedCount s rid) (rid : Nat) :
    (s.delivered ++ [(t.rid, r)]).countP (fun p => p.1 == rid) =
      (s.tasks.set i t').countP (fun u => u.rid == rid && RespondedB u) := by
  have hc := countP_set (fun u => u.rid == rid && RespondedB u) s.tasks i t' t hti
  have hd' := hd rid
  simp only [deliveredCount, respondedCount] at hd'
  rw [List.countP_append]
  simp only [hrid, hf, htr, Bool.and_false, Bool.and_true] at hc
  cases hb : (t.rid == rid) with
  | false =>
    simp only [hb] at hc
    simp only [List.countP_cons, List.countP_nil, hb]
    simp at hc ⊢
    omega
  | true =>
    simp only [hb] at hc
    simp only [List.countP_cons, List.countP_nil, hb]
    simp at hc ⊢
    omega

/-- Invariant preservation: receiving a duplicate request spawns a wait
goroutine bound to the existing marker's generation. -/
theorem coordInv_spawnWait (reqs : List FuncServiceRequest) (s : CoordState)
    (r : FuncServiceRequest) (rest : List FuncServiceRequest) (g : Nat)
    (hp : s.pending = r :: rest)
    (hm : alookup s.markers (cacheKey r.funcMeta) = some g)
    (h : CoordInv reqs s) :
    CoordInv reqs
      { s with
        pending := rest,
        tasks := s.tasks ++
          [⟨r.rid, cacheKey r.funcMeta, g, false, ⟨none, none⟩, Phase.wWait⟩] } := by
  refine ⟨?_, ?_, ?_, ?_, ?_⟩
  · intro rid
    have hd := h.deliv rid
    simp only [deliveredCount, respondedCount] at hd ⊢
    rw [List.countP_append]
    have hz : List.countP (fun u => u.rid == rid && RespondedB u)
        [⟨r.rid, cacheKey r.funcMeta, g, false, ⟨none, none⟩, Phase.wWait⟩] = 0 := by
      simp [List.countP_cons, RespondedB]
    rw [hz, Nat.add_zero]
    exact hd
  · have base := h.ridPerm
    rw [hp] at base
    simp only [List.map_cons, List.cons_append] at base
    simp only [List.map_append, List.map_cons, List.map_nil]
    rw [← List.append_assoc]
    exact (List.perm_append_singleton _ _).trans base
  · intro p hp2
    obtain ⟨j2, t2, hjt2, hic2, hkey2, hgen2, hph2⟩ := h.markerLive p hp2
    exact ⟨j2, t2, getq_append_left _ _ _ _ hjt2, hic2, hkey2, hgen2, hph2⟩
  · intro j u hju hic hphw
    rcases getq_append_cases s.tasks _ u j hju with hold | ⟨hj, hu⟩
    · rcases h.waitLive j u hold hic hphw with hl | ⟨j2, t2, hjt2, hic2, hgen2, hph2⟩
      · exact Or.inl hl
      · exact Or.inr ⟨j2, t2, getq_append_left _ _ _ _ hjt2, hic2, hgen2, hph2⟩
    · subst hu
      have hmem := alookup_mem s.markers (cacheKey r.funcMeta) g hm
      obtain ⟨j2, t2, hjt2, hic2, hkey2, hgen2, hph2⟩ := h.markerLive _ hmem
      refine Or.inr ⟨j2, t2, getq_append_left _ _ _ _ hjt2, hic2, ?_,
        pre_delete_ne_finished hph2⟩
      simpa using hgen2
  · intro j u hju
    rcases getq_append_cases s.tasks _ u j hju with hold | ⟨hj, hu⟩
    · exact h.kindPhase j u hold
    · subst hu
      constructor
      · intro hf
        simp at hf
      · intro _
        exact Or.inl rfl

/-- Invariant preservation: receiving a fresh request installs a marker
with a fresh generation and spawns a creation goroutine holding it. -/
theorem coordInv_spawnCreate (reqs : List FuncServiceRequest) (s : CoordState)
    (r : FuncServiceRequest) (rest : List FuncServiceRequest)
    (hp : s.pending = r :: rest)
    (hm : alookup s.markers (cacheKey r.funcMeta) = none)
    (h : CoordInv reqs s) :
    CoordInv reqs
      { s with
        pending := rest,
        markers := (cacheKey r.funcMeta, s.nextGen) :: s.markers,
        tasks := s.tasks ++
          [⟨r.rid, cacheKey r.funcMeta, s.nextGen, true, ⟨none, none⟩, Phase.crRun⟩],
        nextGen := s.nextGen + 1 } := by
  refine ⟨?_, ?_, ?_, ?_, ?_⟩
  · intro rid
    have hd := h.deliv rid
    simp only [deliveredCount, respondedCount] at hd ⊢
    rw [List.countP_append]
    have hz : List.countP (fun u => u.rid == rid && RespondedB u)
        [⟨r.rid, cacheKey r.funcMeta, s.nextGen, true, ⟨none, none⟩, Phase.crRun⟩] = 0 := by
      simp [List.countP_cons, RespondedB]
    rw [hz, Nat.add_zero]
    exact hd
  · have base := h.ridPerm
    rw [hp] at base
    simp only [List.map_cons, List.cons_append] at base
    simp only [List.map_append, List.map_cons, List.map_nil]
    rw [← List.append_assoc]
    exact (List.perm_append_singleton _ _).trans base
  · intro p hp2
    rcases List.mem_cons.1 hp2 with hnew | hold
    · subst hnew
      exact ⟨s.tasks.length,
        ⟨r.rid, cacheKey r.funcMeta, s.nextGen, true, ⟨none, none⟩, Phase.crRun⟩,
        List.getElem?_concat_length _ _, rfl, rfl, rfl, Or.inl rfl⟩
    · obtain ⟨j2, t2, hjt2, hic2, hkey2, hgen2, hph2⟩ := h.markerLive p hold
      exact ⟨j2, t2, getq_append_left _ _ _ _ hjt2, hic2, hkey2, hgen2, hph2⟩
  · intro j u hju hic hphw
    rcases getq_append_cases s.tasks _ u j hju with hold | ⟨hj, hu⟩
    · rcases h.waitLive j u hold hic hphw with hl | ⟨j2, t2, hjt2, hic2, hgen2, hph2⟩
      · exact Or.inl hl
      · exact Or.inr ⟨j2, t2, getq_append_left _ _ _ _ hjt2, hic2, hgen2, hph2⟩
    · subst hu
      simp at hic
  · intro j u hju
    rcases getq_append_cases s.tasks _ u j hju with hold | ⟨hj, hu⟩
    · exact h.kindPhase j u hold
    · subst hu
      constructor
      · intro _
        constructor
        · intro hc
          cases hc
        · intro hc
          cases hc
      · intro hf
        simp at hf

/-- A goroutine at phase crRun, crRespond, crDelete or crDone is a
creation goroutine. -/
theorem isCreate_of_cr_phase (reqs : List FuncServiceRequest) (s : CoordState)
    (i : Nat) (t : GoTask) (hti : s.tasks[i]? = some t) (h : CoordInv reqs s)
    (hph : t.phase = Phase.crRun ∨ t.phase = Phase.crRespond ∨
      t.phase = Phase.crDelete ∨ t.phase = Phase.crDone) :
    t.isCreate = true := by
  cases hc : t.isCreate with
  | true => rfl
  | false =>
    have hk := (h.kindPhase i t hti).2 hc
    rcases hph with h1 | h1 | h1 | h1 <;> rw [h1] at hk <;> simp at hk

/-- A goroutine at phase wWait or wRespond is a wait goroutine. -/
theorem isWait_of_w_phase (reqs : List FuncServiceRequest) (s : CoordState)
    (i : Nat) (t : GoTask) (hti : s.tasks[i]? = some t) (h : CoordInv reqs s)
    (hph : t.phase = Phase.wWait ∨ t.phase = Phase.wRespond) :
    t.isCreate = false := by
  cases hc : t.isCreate with
  | false => rfl
  | true =>
    have hk := (h.kindPhase i t hti).1 hc
    rcases hph with h1 | h1
    · exact absurd h1 hk.1
    · exact absurd h1 hk.2

/-- Invariant preservation: the createServiceForFunction statement of a
creation goroutine. -/
theorem coordInv_crRun (orc : Nat → PipeOutcome) (reqs : List FuncServiceRequest)
    (s : CoordState) (i : Nat) (t : GoTask) (hti : s.tasks[i]? = some t)
    (hph : t.phase = Phase.crRun) (h : CoordInv reqs s) :
    CoordInv reqs
      { s with
        registry := (runCreation orc t.gen t.key s.registry).2,
        tasks := s.tasks.set i
          { t with resp := (runCreation orc t.gen t.key s.registry).1,
                   phase := Phase.crRespond } } := by
  have hlen : i < s.tasks.length := (List.getElem?_eq_some.1 hti).1
  have hcreate : t.isCreate = true :=
    isCreate_of_cr_phase reqs s i t hti h (Or.inl hph)
  refine ⟨?_, ?_, ?_, ?_, ?_⟩
  · intro rid
    have hs := respondedCount_set_same s i t
      { t with resp := (runCreation orc t.gen t.key s.registry).1,
               phase := Phase.crRespond }
      hti rfl (by simp [RespondedB, hcreate, hph]) rid
    have hd := h.deliv rid
    simp only [deliveredCount, respondedCount] at hd ⊢
    rw [hs]
    exact hd
  · have hmap : (s.tasks.set i
        { t with resp := (runCreation orc t.gen t.key s.registry).1,
                 phase := Phase.crRespond }).map GoTask.rid =
        s.tasks.map GoTask.rid := by
      rw [List.map_set]
      apply set_same
      rw [List.getElem?_map, hti]
      rfl
    have hperm := h.ridPerm
    simpa [hmap] using hperm
  · intro p hp2
    obtain ⟨j2, t2, hjt2, hic2, hkey2, hgen2, hph2⟩ := h.markerLive p hp2
    by_cases hj : j2 = i
    · have ht2 : t2 = t := by
        rw [hj, hti] at hjt2
        exact (Option.some.inj hjt2).symm
      rw [ht2] at hic2 hkey2 hgen2
      exact ⟨i, _, List.getElem?_set_eq_of_lt _ hlen, by simpa using hic2,
        by simpa using hkey2, by simpa using hgen2, Or.inr (Or.inl rfl)⟩
    · exact ⟨j2, t2, by
        rw [List.getElem?_set_ne (fun hh => hj hh.symm)]
        exact hjt2, hic2, hkey2, hgen2, hph2⟩
  · intro j u hju hic hphw
    rcases getq_set_cases s.tasks i j _ u hlen hju with ⟨hj, hu⟩ | ⟨hj, hju'⟩
    · subst hu
      simp [hcreate] at hic
    · rcases h.waitLive j u hju' hic hphw with hl | ⟨j2, t2, hjt2, hic2, hgen2, hph2⟩
      · exact Or.inl hl
      · by_cases hj2 : j2 = i
        · have ht2 : t2 = t := by
            rw [hj2, hti] at hjt2
            exact (Option.some.inj hjt2).symm
          rw [ht2] at hic2 hgen2
          refine Or.inr ⟨i, _, List.getElem?_set_eq_of_lt _ hlen,
            by simpa using hic2, by simpa using hgen2, by simp⟩
        · exact Or.inr ⟨j2, t2, by
            rw [List.getElem?_set_ne (fun hh => hj2 hh.symm)]
            exact hjt2, hic2, hgen2, hph2⟩
  · intro j u hju
    rcases getq_set_cases s.tasks i j _ u hlen hju with ⟨hj, hu⟩ | ⟨hj, hju'⟩
    · subst hu
      constructor
      · intro _
        constructor
        · intro hc
          cases hc
        · intro hc
          cases hc
      · intro hf
        simp [hcreate] at hf
    · exact h.kindPhase j u hju'

/-- Invariant preservation: the respChan send of a creation goroutine. -/
theorem coordInv_crRespond (reqs : List FuncServiceRequest)
    (s : CoordState) (i : Nat) (t : GoTask) (hti : s.tasks[i]? = some t)
    (hph : t.phase = Phase.crRespond) (h : CoordInv reqs s) :
    CoordInv reqs
      { s with
        delivered := s.delivered ++ [(t.rid, t.resp)],
        tasks := s.tasks.set i { t with phase := Phase.crDelete } } := by
  have hlen : i < s.tasks.length := (List.getElem?_eq_some.1 hti).1
  have hcreate : t.isCreate = true :=
    isCreate_of_cr_phase reqs s i t hti h (Or.inr (Or.inl hph))
  refine ⟨?_, ?_, ?_, ?_, ?_⟩
  · intro rid
    have hs := deliv_step_send s i t { t with phase := Phase.crDelete } t.resp hti rfl
      (by simp [RespondedB, hcreate, hph]) (by simp [RespondedB, hcreate]) h.deliv rid
    simp only [deliveredCount, respondedCount] at hs ⊢
    exact hs
  · have hmap : (s.tasks.set i { t with phase := Phase.crDelete }).map GoTask.rid =
        s.tasks.map GoTask.rid := by
      rw [List.map_set]
      apply set_same
      rw [List.getElem?_map, hti]
      rfl
    have hperm := h.ridPerm
    simpa [hmap] using hperm
  · intro p hp2
    obtain ⟨j2, t2, hjt2, hic2, hkey2, hgen2, hph2⟩ := h.markerLive p hp2
    by_cases hj : j2 = i
    · have ht2 : t2 = t := by
        rw [hj, hti] at hjt2
        exact (Option.some.inj hjt2).symm
      rw [ht2] at hic2 hkey2 hgen2
      exact ⟨i, _, List.getElem?_set_eq_of_lt _ hlen, by simpa using hic2,
        by simpa using hkey2, by simpa using hgen2, Or.inr (Or.inr rfl)⟩
    · exact ⟨j2, t2, by
        rw [List.getElem?_set_ne (fun hh => hj hh.symm)]
        exact hjt2, hic2, hkey2, hgen2, hph2⟩
  · intro j u hju hic hphw
    rcases getq_set_cases s.tasks i j _ u hlen hju with ⟨hj, hu⟩ | ⟨hj, hju'⟩
    · subst hu
      simp [hcreate] at hic
    · rcases h.waitLive j u hju' hic hphw with hl | ⟨j2, t2, hjt2, hic2, hgen2, hph2⟩
      · exact Or.inl hl
      · by_cases hj2 : j2 = i
        · have ht2 : t2 = t := by
            rw [hj2, hti] at hjt2
            exact (Option.some.inj hjt2).symm
          rw [ht2] at hic2 hgen2
          refine Or.inr ⟨i, _, List.getElem?_set_eq_of_lt _ hlen,
            by simpa using hic2, by simpa using hgen2, by simp⟩
        · exact Or.inr ⟨j2, t2, by
            rw [List.getElem?_set_ne (fun hh => hj2 hh.symm)]
            exact hjt2, hic2, hgen2, hph2⟩
  · intro j u hju
    rcases getq_set_cases s.tasks i j _ u hlen hju with ⟨hj, hu⟩ | ⟨hj, hju'⟩
    · subst hu
      constructor
      · intro _
        constructor
        · intro hc
          cases hc
        · intro hc
          cases hc
      · intro hf
        simp [hcreate] at hf
    · exact h.kindPhase j u hju'

/-- Invariant preservation: the marker delete of a creation goroutine
(delete(executor.fsCreateWg, key), unconditional on the generation). -/
theorem coordInv_crDelete (reqs : List FuncServiceRequest)
    (s : CoordState) (i : Nat) (t : GoTask) (hti : s.tasks[i]? = some t)
    (hph : t.phase = Phase.crDelete) (h : CoordInv reqs s) :
    CoordInv reqs
      { s with
        markers := mErase s.markers t.key,
        tasks := s.tasks.set i { t with phase := Phase.crDone } } := by
  have hlen : i < s.tasks.length := (List.getElem?_eq_some.1 hti).1
  have hcreate : t.isCreate = true :=
    isCreate_of_cr_phase reqs s i t hti h (Or.inr (Or.inr (Or.inl hph)))
  refine ⟨?_, ?_, ?_, ?_, ?_⟩
  · intro rid
    have hs := respondedCount_set_same s i t { t with phase := Phase.crDone }
      hti rfl (by simp [RespondedB, hcreate, hph]) rid
    have hd := h.deliv rid
    simp only [deliveredCount, respondedCount] at hd ⊢
    rw [hs]
    exact hd
  · have hmap : (s.tasks.set i { t with phase := Phase.crDone }).map GoTask.rid =
        s.tasks.map GoTask.rid := by
      rw [List.map_set]
      apply set_same
      rw [List.getElem?_map, hti]
      rfl
    have hperm := h.ridPerm
    simpa [hmap] using hperm
  · intro p hp2
    have hp3 : p ∈ s.markers ∧ p.1 ≠ t.key := by
      have hf := List.mem_filter.1 hp2
      refine ⟨hf.1, ?_⟩
      simpa using hf.2
    obtain ⟨j2, t2, hjt2, hic2, hkey2, hgen2, hph2⟩ := h.markerLive p hp3.1
    by_cases hj : j2 = i
    · exfalso
      have ht2 : t2 = t := by
        rw [hj, hti] at hjt2
        exact (Option.some.inj hjt2).symm
      rw [ht2] at hkey2
      exact hp3.2 hkey2.symm
    · exact ⟨j2, t2, by
        rw [List.getElem?_set_ne (fun hh => hj hh.symm)]
        exact hjt2, hic2, hkey2, hgen2, hph2⟩
  · intro j u hju hic hphw
    rcases getq_set_cases s.tasks i j _ u hlen hju with ⟨hj, hu⟩ | ⟨hj, hju'⟩
    · subst hu
      simp [hcreate] at hic
    · rcases h.waitLive j u hju' hic hphw with hl | ⟨j2, t2, hjt2, hic2, hgen2, hph2⟩
      · exact Or.inl hl
      · by_cases hj2 : j2 = i
        · have ht2 : t2 = t := by
            rw [hj2, hti] at hjt2
            exact (Option.some.inj hjt2).symm
          rw [ht2] at hic2 hgen2
          refine Or.inr ⟨i, _, List.getElem?_set_eq_of_lt _ hlen,
            by simpa using hic2, by simpa using hgen2, by simp⟩
        · exact Or.inr ⟨j2, t2, by
            rw [List.getElem?_set_ne (fun hh => hj2 hh.symm)]
            exact hjt2, hic2, hgen2, hph2⟩
  · intro j u hju
    rcases getq_set_cases s.tasks i j _ u hlen hju with ⟨hj, hu⟩ | ⟨hj, hju'⟩
    · subst hu
      constructor
      · intro _
        constructor
        · intro hc
          cases hc
        · intro hc
          cases hc
      · intro hf
        simp [hcreate] at hf
    · exact h.kindPhase j u hju'

/-- Invariant preservation: the wg.Done of a creation goroutine. -/
theorem coordInv_crDone (reqs : List FuncServiceRequest)
    (s : CoordState) (i : Nat) (t : GoTask) (hti : s.tasks[i]? = some t)
    (hph : t.phase = Phase.crDone) (h : CoordInv reqs s) :
    CoordInv reqs
      { s with
        doneGens := t.gen :: s.doneGens,
        tasks := s.tasks.set i { t with phase := Phase.finished } } := by
  have hlen : i < s.tasks.length := (List.getElem?_eq_some.1 hti).1
  have hcreate : t.isCreate = true :=
    isCreate_of_cr_phase reqs s i t hti h (Or.inr (Or.inr (Or.inr hph)))
  refine ⟨?_, ?_, ?_, ?_, ?_⟩
  · intro rid
    have hs := respondedCount_set_same s i t { t with phase := Phase.finished }
      hti rfl (by simp [RespondedB, hcreate, hph]) rid
    have hd := h.deliv rid
    simp only [deliveredCount, respondedCount] at hd ⊢
    rw [hs]
    exact hd
  · have hmap : (s.tasks.set i { t with phase := Phase.finished }).map GoTask.rid =
        s.tasks.map GoTask.rid := by
      rw [List.map_set]
      apply set_same
      rw [List.getElem?_map, hti]
      rfl
    have hperm := h.ridPerm
    simpa [hmap] using hperm
  · intro p hp2
    obtain ⟨j2, t2, hjt2, hic2, hkey2, hgen2, hph2⟩ := h.markerLive p hp2
    by_cases hj : j2 = i
    · exfalso
      have ht2 : t2 = t := by
        rw [hj, hti] at hjt2
        exact (Option.some.inj hjt2).symm
      rw [ht2, hph] at hph2
      simp at hph2
    · exact ⟨j2, t2, by
        rw [List.getElem?_set_ne (fun hh => hj hh.symm)]
        exact hjt2, hic2, hkey2, hgen2, hph2⟩
  · intro j u hju hic hphw
    rcases getq_set_cases s.tasks i j _ u hlen hju with ⟨hj, hu⟩ | ⟨hj, hju'⟩
    · subst hu
      simp [hcreate] at hic
    · rcases h.waitLive j u hju' hic hphw with hl | ⟨j2, t2, hjt2, hic2, hgen2, hph2⟩
      · exact Or.inl (List.mem_cons_of_mem _ hl)
      · by_cases hj2 : j2 = i
        · have ht2 : t2 = t := by
            rw [hj2, hti] at hjt2
            exact (Option.some.inj hjt2).symm
          rw [ht2] at hgen2
          exact Or.inl (by
            rw [← hgen2]
            exact List.mem_cons_self _ _)
        · exact Or.inr ⟨j2, t2, by
            rw [List.getElem?_set_ne (fun hh => hj2 hh.symm)]
            exact hjt2, hic2, hgen2, hph2⟩
  · intro j u hju
    rcases getq_set_cases s.tasks i j _ u hlen hju with ⟨hj, hu⟩ | ⟨hj, hju'⟩
    · subst hu
      constructor
      · intro _
        constructor
        · intro hc
          cases hc
        · intro hc
          cases hc
      · intro _
        exact Or.inr (Or.inr rfl)
    · exact h.kindPhase j u hju'

/-- Invariant preservation: a wait goroutine returning from wg.Wait
once the generation has been signalled. -/
theorem coordInv_wWait (reqs : List FuncServiceRequest)
    (s : CoordState) (i : Nat) (t : GoTask) (hti : s.tasks[i]? = some t)
    (hph : t.phase = Phase.wWait) (h : CoordInv reqs s) :
    CoordInv reqs
      { s with tasks := s.tasks.set i { t with phase := Phase.wRespond } } := by
  have hlen : i < s.tasks.length := (List.getElem?_eq_some.1 hti).1
  have hwait : t.isCreate = false :=
    isWait_of_w_phase reqs s i t hti h (Or.inl hph)
  refine ⟨?_, ?_, ?_, ?_, ?_⟩
  · intro rid
    have hs := respondedCount_set_same s i t { t with phase := Phase.wRespond }
      hti rfl (by simp [RespondedB, hwait, hph]) rid
    have hd := h.deliv rid
    simp only [deliveredCount, respondedCount] at hd ⊢
    rw [hs]
    exact hd
  · have hmap : (s.tasks.set i { t with phase := Phase.wRespond }).map GoTask.rid =
        s.tasks.map GoTask.rid := by
      rw [List.map_set]
      apply set_same
      rw [List.getElem?_map, hti]
      rfl
    have hperm := h.ridPerm
    simpa [hmap] using hperm
  · intro p hp2
    obtain ⟨j2, t2, hjt2, hic2, hkey2, hgen2, hph2⟩ := h.markerLive p hp2
    by_cases hj : j2 = i
    · exfalso
      have ht2 : t2 = t := by
        rw [hj, hti] at hjt2
        exact (Option.some.inj hjt2).symm
      rw [ht2] at hic2
      rw [hwait] at hic2
      cases hic2
    · exact ⟨j2, t2, by
        rw [List.getElem?_set_ne (fun hh => hj hh.symm)]
        exact hjt2, hic2, hkey2, hgen2, hph2⟩
  · intro j u hju hic hphw
    rcases getq_set_cases s.tasks i j _ u hlen hju with ⟨hj, hu⟩ | ⟨hj, hju'⟩
    · subst hu
      simp at hphw
    · rcases h.waitLive j u hju' hic hphw with hl | ⟨j2, t2, hjt2, hic2, hgen2, hph2⟩
      · exact Or.inl hl
      · by_cases hj2 : j2 = i
        · exfalso
          have ht2 : t2 = t := by
            rw [hj2, hti] at hjt2
            exact (Option.some.inj hjt2).symm
          rw [ht2, hwait] at hic2
          cases hic2
        · exact Or.inr ⟨j2, t2, by
            rw [List.getElem?_set_ne (fun hh => hj2 hh.symm)]
            exact hjt2, hic2, hgen2, hph2⟩
  · intro j u hju
    rcases getq_set_cases s.tasks i j _ u hlen hju with ⟨hj, hu⟩ | ⟨hj, hju'⟩
    · subst hu
      constructor
      · intro hf
        simp [hwait] at hf
      · intro _
        exact Or.inr (Or.inl rfl)
    · exact h.kindPhase j u hju'

/-- Invariant preservation: a wait goroutine reading the
function-service cache and sending on respChan. -/
theorem coordInv_wRespond (reqs : List FuncServiceRequest)
    (s : CoordState) (i : Nat) (t : GoTask) (hti : s.tasks[i]? = some t)
    (hph : t.phase = Phase.wRespond) (h : CoordInv reqs s) :
    CoordInv reqs
      { s with
        delivered := s.delivered ++ [(t.rid, getByFunction s.registry t.key)],
        tasks := s.tasks.set i { t with phase := Phase.finished } } := by
  have hlen : i < s.tasks.length := (List.getElem?_eq_some.1 hti).1
  have hwait : t.isCreate = false :=
    isWait_of_w_phase reqs s i t hti h (Or.inr hph)
  refine ⟨?_, ?_, ?_, ?_, ?_⟩
  · intro rid
    have hs := deliv_step_send s i t { t with phase := Phase.finished }
      (getByFunction s.registry t.key) hti rfl
      (by simp [RespondedB, hwait, hph]) (by simp [RespondedB, hwait]) h.deliv rid
    simp only [deliveredCount, respondedCount] at hs ⊢
    exact hs
  · have hmap : (s.tasks.set i { t with phase := Phase.finished }).map GoTask.rid =
        s.tasks.map GoTask.rid := by
      rw [List.map_set]
      apply set_same
      rw [List.getElem?_map, hti]
      rfl
    have hperm := h.ridPerm
    simpa [hmap] using hperm
  · intro p hp2
    obtain ⟨j2, t2, hjt2, hic2, hkey2, hgen2, hph2⟩ := h.markerLive p hp2
    by_cases hj : j2 = i
    · exfalso
      have ht2 : t2 = t := by
        rw [hj, hti] at hjt2
        exact (Option.some.inj hjt2).symm
      rw [ht2, hwait] at hic2
      cases hic2
    · exact ⟨j2, t2, by
        rw [List.getElem?_set_ne (fun hh => hj hh.symm)]
        exact hjt2, hic2, hkey2, hgen2, hph2⟩
  · intro j u hju hic hphw
    rcases getq_set_cases s.tasks i j _ u hlen hju with ⟨hj, hu⟩ | ⟨hj, hju'⟩
    · subst hu
      simp at hphw
    · rcases h.waitLive j u hju' hic hphw with hl | ⟨j2, t2, hjt2, hic2, hgen2, hph2⟩
      · exact Or.inl hl
      · by_cases hj2 : j2 = i
        · exfalso
          have ht2 : t2 = t := by
            rw [hj2, hti] at hjt2
            exact (Option.some.inj hjt2).symm
          rw [ht2, hwait] at hic2
          cases hic2
        · exact Or.inr ⟨j2, t2, by
            rw [List.getElem?_set_ne (fun hh => hj2 hh.symm)]
            exact hjt2, hic2, hgen2, hph2⟩
  · intro j u hju
    rcases getq_set_cases s.tasks i j _ u hlen hju with ⟨hj, hu⟩ | ⟨hj, hju'⟩
    · subst hu
      constructor
      · intro hf
        simp [hwait] at hf
      · intro _
        exact Or.inr (Or.inr rfl)
    · exact h.kindPhase j u hju'

/-- Invariant preservation: one iteration of the admission loop. -/
theorem coordInv_serve (reqs : List FuncServiceRequest) (s : CoordState)
    (h : CoordInv reqs s) : CoordInv reqs (serveCreateFuncServices s) := by
  cases hp : s.pending with
  | nil => simpa [serveCreateFuncServices, hp] using h
  | cons r rest =>
    cases hm : alookup s.markers (cacheKey r.funcMeta) with
    | some g =>
      have hr := coordInv_spawnWait reqs s r rest g hp hm h
      simpa [serveCreateFuncServices, hp, hm] using hr
    | none =>
      have hr := coordInv_spawnCreate reqs s r rest hp hm h
      simpa [serveCreateFuncServices, hp, hm] using hr

/-- Invariant preservation: one goroutine statement. -/
theorem coordInv_stepTask (orc : Nat → PipeOutcome) (reqs : List FuncServiceRequest)
    (s : CoordState) (i : Nat) (h : CoordInv reqs s) :
    CoordInv reqs (stepTask orc s i) := by
  cases hti : s.tasks[i]? with
  | none => simpa [stepTask, hti] using h
  | some t =>
    cases hph : t.phase with
    | crRun =>
      have hr := coordInv_crRun orc reqs s i t hti hph h
      simpa [stepTask, hti, hph] using hr
    | crRespond =>
      have hr := coordInv_crRespond reqs s i t hti hph h
      simpa [stepTask, hti, hph] using hr
    | crDelete =>
      have hr := coordInv_crDelete reqs s i t hti hph h
      simpa [stepTask, hti, hph] using hr
    | crDone =>
      have hr := coordInv_crDone reqs s i t hti hph h
      simpa [stepTask, hti, hph] using hr
    | wWait =>
      by_cases hg : t.gen ∈ s.doneGens
      · have hr := coordInv_wWait reqs s i t hti hph h
        simpa [stepTask, hti, hph, hg] using hr
      · simpa [stepTask, hti, hph, hg] using h
    | wRespond =>
      have hr := coordInv_wRespond reqs s i t hti hph h
      simpa [stepTask, hti, hph] using hr
    | finished => simpa [stepTask, hti, hph] using h

/-- Invariant preservation: any scheduled step. -/
theorem coordInv_step (orc : Nat → PipeOutcome) (reqs : List FuncServiceRequest)
    (c : Choice) (s : CoordState) (h : CoordInv reqs s) :
    CoordInv reqs (coordStep orc c s) := by
  cases c with
  | recvReq => exact coordInv_serve reqs s h
  | runTask i => exact coordInv_stepTask orc reqs s i h

/-- The invariant holds in every reachable state. -/
theorem coordInv_exec (orc : Nat → PipeOutcome) (reqs : List FuncServiceRequest)
    (sched : List Choice) (s : CoordState) (h : CoordInv reqs s) :
    CoordInv reqs (coordExec orc sched s) := by
  induction sched generalizing s with
  | nil => exact h
  | cons c cs ih => exact ih _ (coordInv_step orc reqs c s h)

/-- With pairwise-distinct request ids, goroutine rids are pairwise
distinct. -/
theorem tasks_rid_nodup (reqs : List FuncServiceRequest) (s : CoordState)
    (h : CoordInv reqs s) (hnd : (reqs.map FuncServiceRequest.rid).Nodup) :
    (s.tasks.map GoTask.rid).Nodup := by
  have hall : (s.pending.map FuncServiceRequest.rid ++
      s.tasks.map GoTask.rid).Nodup := (h.ridPerm.nodup_iff).2 hnd
  exact hall.of_append_right

/-- At most one goroutine serves a given request id, hence at most one
has responded. -/
theorem respondedCount_le_one (reqs : List FuncServiceRequest) (s : CoordState)
    (h : CoordInv reqs s) (hnd : (reqs.map FuncServiceRequest.rid).Nodup)
    (rid : Nat) : respondedCount s rid ≤ 1 := by
  have hn := tasks_rid_nodup reqs s h hnd
  have h1 : respondedCount s rid ≤ s.tasks.countP (fun u => u.rid == rid) := by
    apply List.countP_mono_left
    intro u _ hu
    rw [Bool.and_eq_true] at hu
    exact hu.1
  have h2 : s.tasks.countP (fun u => u.rid == rid) =
      (s.tasks.map GoTask.rid).count rid := by
    rw [List.count_eq_countP, List.countP_map]
    rfl
  have h3 := (List.nodup_iff_count_le_one.1 hn) rid
  omega

/-- In a complete state every submitted request's conduit has received
exactly one response. -/
theorem complete_delivers_all (reqs : List FuncServiceRequest) (s : CoordState)
    (h : CoordInv reqs s) (hnd : (reqs.map FuncServiceRequest.rid).Nodup)
    (hc : CompleteState s) :
    ∀ r ∈ reqs, deliveredCount s r.rid = 1 := by
  intro r hr
  have hperm := h.ridPerm
  rw [hc.1] at hperm
  simp only [List.map_nil, List.nil_append] at hperm
  have hmem : r.rid ∈ s.tasks.map GoTask.rid :=
    hperm.mem_iff.2 (List.mem_map_of_mem _ hr)
  obtain ⟨t, ht, hteq⟩ := List.mem_map.1 hmem
  have hfin := hc.2 t ht
  have hresp : RespondedB t = true := by
    cases hic : t.isCreate <;> simp [RespondedB, hic, hfin]
  have hpos : 0 < respondedCount s r.rid := by
    apply List.countP_pos_iff.2
    exact ⟨t, ht, by simp [hteq, hresp]⟩
  have hle := respondedCount_le_one reqs s h hnd r.rid
  have hd := h.deliv r.rid
  omega

/-- Replacing one goroutine by one with strictly less remaining work
strictly decreases the measure. -/
theorem coordMeasure_lt_of_set (s s' : CoordState) (j : Nat) (u u' : GoTask)
    (hju : s.tasks[j]? = some u) (hp : s'.pending = s.pending)
    (ht : s'.tasks = s.tasks.set j u') (hlt : remTask u' < remTask u) :
    coordMeasure s' < coordMeasure s := by
  have hsum := summap_set remTask s.tasks j u' u hju
  simp only [coordMeasure, hp, ht]
  omega

/-- No deadlock: any incomplete reachable state has an enabled step that
strictly decreases the remaining work. -/
theorem coord_progress (orc : Nat → PipeOutcome) (reqs : List FuncServiceRequest)
    (s : CoordState) (h : CoordInv reqs s) (hnc : ¬ CompleteState s) :
    ∃ c, coordMeasure (coordStep orc c s) < coordMeasure s := by
  by_cases hp : s.pending = []
  · have hex : ∃ t ∈ s.tasks, t.phase ≠ Phase.finished := by
      by_contra hall
      push_neg at hall
      exact hnc ⟨hp, hall⟩
    obtain ⟨t0, ht0, hph0⟩ := hex
    by_cases hcr : ∃ (j : Nat) (u : GoTask), s.tasks[j]? = some u ∧
        u.isCreate = true ∧ u.phase ≠ Phase.finished
    · obtain ⟨j, u, hju, hic, hphne⟩ := hcr
      have hkp := (h.kindPhase j u hju).1 hic
      cases hphu : u.phase with
      | crRun =>
        refine ⟨Choice.runTask j, ?_⟩
        have hstep : coordStep orc (Choice.runTask j) s =
            { s with
              registry := (runCreation orc u.gen u.key s.registry).2,
              tasks := s.tasks.set j
                { u with resp := (runCreation orc u.gen u.key s.registry).1,
                         phase := Phase.crRespond } } := by
          simp [coordStep, stepTask, hju, hphu]
        rw [hstep]
        exact coordMeasure_lt_of_set s _ j u _ hju rfl rfl
          (by simp [remTask, hphu])
      | crRespond =>
        refine ⟨Choice.runTask j, ?_⟩
        have hstep : coordStep orc (Choice.runTask j) s =
            { s with
              delivered := s.delivered ++ [(u.rid, u.resp)],
              tasks := s.tasks.set j { u with phase := Phase.crDelete } } := by
          simp [coordStep, stepTask, hju, hphu]
        rw [hstep]
        exact coordMeasure_lt_of_set s _ j u _ hju rfl rfl
          (by simp [remTask, hphu])
      | crDelete =>
        refine ⟨Choice.runTask j, ?_⟩
        have hstep : coordStep orc (Choice.runTask j) s =
            { s with
              markers := mErase s.markers u.key,
              tasks := s.tasks.set j { u with phase := Phase.crDone } } := by
          simp [coordStep, stepTask, hju, hphu]
        rw [hstep]
        exact coordMeasure_lt_of_set s _ j u _ hju rfl rfl
          (by simp [remTask, hphu])
      | crDone =>
        refine ⟨Choice.runTask j, ?_⟩
        have hstep : coordStep orc (Choice.runTask j) s =
            { s with
              doneGens := u.gen :: s.doneGens,
              tasks := s.tasks.set j { u with phase := Phase.finished } } := by
          simp [coordStep, stepTask, hju, hphu]
        rw [hstep]
        exact coordMeasure_lt_of_set s _ j u _ hju rfl rfl
          (by simp [remTask, hphu])
      | wWait => exact absurd hphu hkp.1
      | wRespond => exact absurd hphu hkp.2
      | finished => exact absurd hphu hphne
    · obtain ⟨j, hj⟩ := List.mem_iff_getElem?.1 ht0
      have hic0 : t0.isCreate = false := by
        cases hic : t0.isCreate with
        | false => rfl
        | true => exact absurd ⟨j, t0, hj, hic, hph0⟩ hcr
      have hkp := (h.kindPhase j t0 hj).2 hic0
      rcases hkp with hw | hw | hw
      · have hdone : t0.gen ∈ s.doneGens := by
          rcases h.waitLive j t0 hj hic0 hw with hl | ⟨j2, t2, hjt2, hic2, hgen2, hph2⟩
          · exact hl
          · exact absurd ⟨j2, t2, hjt2, hic2, hph2⟩ hcr
        refine ⟨Choice.runTask j, ?_⟩
        have hstep : coordStep orc (Choice.runTask j) s =
            { s with tasks := s.tasks.set j { t0 with phase := Phase.wRespond } } := by
          simp [coordStep, stepTask, hj, hw, hdone]
        rw [hstep]
        exact coordMeasure_lt_of_set s _ j t0 _ hj rfl rfl
          (by simp [remTask, hw])
      · refine ⟨Choice.runTask j, ?_⟩
        have hstep : coordStep orc (Choice.runTask j) s =
            { s with
              delivered := s.delivered ++
                [(t0.rid, getByFunction s.registry t0.key)],
              tasks := s.tasks.set j { t0 with phase := Phase.finished } } := by
          simp [coordStep, stepTask, hj, hw]
        rw [hstep]
        exact coordMeasure_lt_of_set s _ j t0 _ hj rfl rfl
          (by simp [remTask, hw])
      · exact absurd hw hph0
  · obtain ⟨r, rest, hr⟩ : ∃ r rest, s.pending = r :: rest := by
      cases hq : s.pending with
      | nil => exact absurd hq hp
      | cons a l => exact ⟨a, l, rfl⟩
    refine ⟨Choice.recvReq, ?_⟩
    cases hm : alookup s.markers (cacheKey r.funcMeta) with
    | some g =>
      have hstep : coordStep orc Choice.recvReq s =
          { s with pending := rest,
                   tasks := s.tasks ++
                     [⟨r.rid, cacheKey r.funcMeta, g, false, ⟨none, none⟩,
                       Phase.wWait⟩] } := by
        simp [coordStep, serveCreateFuncServices, hr, hm]
      rw [hstep]
      simp only [coordMeasure, hr, List.map_append, List.sum_append,
        List.length_cons, List.map_cons, List.map_nil, List.sum_cons,
        List.sum_nil]
      have hrt : remTask
          ⟨r.rid, cacheKey r.funcMeta, g, false, ⟨none, none⟩, Phase.wWait⟩ = 2 := rfl
      rw [hrt]
      omega
    | none =>
      have hstep : coordStep orc Choice.recvReq s =
          { s with pending := rest,
                   markers := (cacheKey r.funcMeta, s.nextGen) :: s.markers,
                   tasks := s.tasks ++
                     [⟨r.rid, cacheKey r.funcMeta, s.nextGen, true, ⟨none, none⟩,
                       Phase.crRun⟩],
                   nextGen := s.nextGen + 1 } := by
        simp [coordStep, serveCreateFuncServices, hr, hm]
      rw [hstep]
      simp only [coordMeasure, hr, List.map_append, List.sum_append,
        List.length_cons, List.map_cons, List.map_nil, List.sum_cons,
        List.sum_nil]
      have hrt : remTask
          ⟨r.rid, cacheKey r.funcMeta, s.nextGen, true, ⟨none, none⟩,
            Phase.crRun⟩ = 4 := rfl
      rw [hrt]
      omega

/-- C3: starting from the submitted requests, under every scheduling of
the admission loop and the spawned goroutines, every conduit receives
at most one response; once every request has been received and every
goroutine has finished, every submitted request's conduit has received
exactly one response; and an incomplete state always has an enabled
step that strictly decreases the remaining work, so no request can be
dropped by a stuck coordinator. -/
theorem submit_exactly_one_result (orc : Nat → PipeOutcome)
    (reqs : List FuncServiceRequest) (sched : List Choice)
    (hnd : (reqs.map FuncServiceRequest.rid).Nodup) :
    (∀ rid : Nat,
      deliveredCount (coordExec orc sched (initState reqs)) rid ≤ 1) ∧
    (CompleteState (coordExec orc sched (initState reqs)) →
      ∀ r ∈ reqs,
        deliveredCount (coordExec orc sched (initState reqs)) r.rid = 1) ∧
    (¬ CompleteState (coordExec orc sched (initState reqs)) →
      ∃ c, coordMeasure (coordStep orc c (coordExec orc sched (initState reqs))) <
        coordMeasure (coordExec orc sched (initState reqs))) := by
  have hinv := coordInv_exec orc reqs sched (initState reqs) (coordInv_init reqs)
  refine ⟨?_, ?_, ?_⟩
  · intro rid
    have h1 := hinv.deliv rid
    have h2 := respondedCount_le_one reqs _ hinv hnd rid
    omega
  · intro hc
    exact complete_delivers_all reqs _ hinv hnd hc
  · intro hnc
    exact coord_progress orc reqs _ hinv hnc

/-- C3 witness: two distinct requests for one function, fully run. -/
theorem submit_exactly_one_result_witness :
    (raceReqs2.map FuncServiceRequest.rid).Nodup ∧
    (∀ rid : Nat,
      deliveredCount (coordExec raceOrc c1SchedFull (initState raceReqs2)) rid ≤ 1) :=
  ⟨by decide,
    (submit_exactly_one_result raceOrc raceReqs2 c1SchedFull (by decide)).1⟩

/-
The failed-creation scenario (C4): when no creation pipeline succeeds
through the pool, the function-service cache stays empty and every
response delivered to a wait goroutine's conduit is the distinct
not-found error — never a nil-nil empty success.
-/

/-- Invariant of executions whose creation pipelines never succeed
through the pool. -/
structure FailInv (reqs : List FuncServiceRequest) (s : CoordState) : Prop where
  regEmpty : s.registry = []
  waitDeliv : ∀ (j : Nat) (t : GoTask), s.tasks[j]? = some t →
    t.isCreate = false →
    ∀ r : FuncServiceResponse, (t.rid, r) ∈ s.delivered →
      r = ⟨none, some FErr.notFound⟩

/-- A non-pool outcome leaves the function-service cache untouched. -/
theorem runCreation_registry_of_not_pool (orc : Nat → PipeOutcome) (g : Nat)
    (k : String) (reg : List (String × Nat))
    (hf : orc g ≠ PipeOutcome.poolOutcome) :
    (runCreation orc g k reg).2 = reg := by
  cases ho : orc g with
  | poolOutcome => exact absurd ho hf
  | deployOutcome => simp [runCreation, ho]
  | failOutcome e => simp [runCreation, ho]

/-- A request still pending has received no response yet. -/
theorem pending_head_no_delivery (reqs : List FuncServiceRequest) (s : CoordState)
    (hco : CoordInv reqs s) (hnd : (reqs.map FuncServiceRequest.rid).Nodup)
    (r0 : FuncServiceRequest) (rest : List FuncServiceRequest)
    (hp : s.pending = r0 :: rest) : deliveredCount s r0.rid = 0 := by
  have hall : (s.pending.map FuncServiceRequest.rid ++
      s.tasks.map GoTask.rid).Nodup := (hco.ridPerm.nodup_iff).2 hnd
  rw [hp] at hall
  simp only [List.map_cons, List.cons_append] at hall
  have hnot : r0.rid ∉ s.tasks.map GoTask.rid := fun hmem =>
    (List.nodup_cons.1 hall).1 (List.mem_append.2 (Or.inr hmem))
  have hzero : respondedCount s r0.rid = 0 := by
    apply List.countP_eq_zero.2
    intro u hu hqu
    rw [Bool.and_eq_true] at hqu
    have : u.rid = r0.rid := by simpa using hqu.1
    exact hnot (this ▸ List.mem_map_of_mem GoTask.rid hu)
  rw [hco.deliv r0.rid, hzero]

/-- FailInv is preserved by every scheduled step. -/
theorem failInv_step (orc : Nat → PipeOutcome) (reqs : List FuncServiceRequest)
    (c : Choice) (s : CoordState) (hco : CoordInv reqs s)
    (hnd : (reqs.map FuncServiceRequest.rid).Nodup)
    (hfail : ∀ n : Nat, orc n ≠ PipeOutcome.poolOutcome)
    (h : FailInv reqs s) : FailInv reqs (coordStep orc c s) := by
  cases c with
  | recvReq =>
    cases hp : s.pending with
    | nil =>
      have hid : coordStep orc Choice.recvReq s = s := by
        simp [coordStep, serveCreateFuncServices, hp]
      rw [hid]
      exact h
    | cons r0 rest =>
      cases hm : alookup s.markers (cacheKey r0.funcMeta) with
      | some g =>
        have hstep : coordStep orc Choice.recvReq s =
            { s with pending := rest,
                     tasks := s.tasks ++
                       [⟨r0.rid, cacheKey r0.funcMeta, g, false, ⟨none, none⟩,
                         Phase.wWait⟩] } := by
          simp [coordStep, serveCreateFuncServices, hp, hm]
        rw [hstep]
        refine ⟨h.regEmpty, ?_⟩
        intro j u hju hic r hr
        rcases getq_append_cases s.tasks _ u j hju with hold | ⟨hj, hu⟩
        · exact h.waitDeliv j u hold hic r hr
        · subst hu
          exfalso
          have hzero := pending_head_no_delivery reqs s hco hnd r0 rest hp
          have hmem := List.countP_eq_zero.1 hzero _ hr
          simp at hmem
      | none =>
        have hstep : coordStep orc Choice.recvReq s =
            { s with pending := rest,
                     markers := (cacheKey r0.funcMeta, s.nextGen) :: s.markers,
                     tasks := s.tasks ++
                       [⟨r0.rid, cacheKey r0.funcMeta, s.nextGen, true, ⟨none, none⟩,
                         Phase.crRun⟩],
                     nextGen := s.nextGen + 1 } := by
          simp [coordStep, serveCreateFuncServices, hp, hm]
        rw [hstep]
        refine ⟨h.regEmpty, ?_⟩
        intro j u hju hic r hr
        rcases getq_append_cases s.tasks _ u j hju with hold | ⟨hj, hu⟩
        · exact h.waitDeliv j u hold hic r hr
        · subst hu
          simp at hic
  | runTask i =>
    cases hti : s.tasks[i]? with
    | none =>
      have hid : coordStep orc (Choice.runTask i) s = s := by
        simp [coordStep, stepTask, hti]
      rw [hid]
      exact h
    | some t =>
      have hlen : i < s.tasks.length := (List.getElem?_eq_some.1 hti).1
      cases hph : t.phase with
      | crRun =>
        have hcreate : t.isCreate = true :=
          isCreate_of_cr_phase reqs s i t hti hco (Or.inl hph)
        have hstep : coordStep orc (Choice.runTask i) s =
            { s with
              registry := (runCreation orc t.gen t.key s.registry).2,
              tasks := s.tasks.set i
                { t with resp := (runCreation orc t.gen t.key s.registry).1,
                         phase := Phase.crRespond } } := by
          simp [coordStep, stepTask, hti, hph]
        rw [hstep]
        refine ⟨?_, ?_⟩
        · rw [runCreation_registry_of_not_pool orc t.gen t.key s.registry
            (hfail t.gen)]
          exact h.regEmpty
        · intro j u hju hic r hr
          rcases getq_set_cases s.tasks i j _ u hlen hju with ⟨hj, hu⟩ | ⟨hj, hju'⟩
          · subst hu
            simp [hcreate] at hic
          · exact h.waitDeliv j u hju' hic r hr
      | crRespond =>
        have hcreate : t.isCreate = true :=
          isCreate_of_cr_phase reqs s i t hti hco (Or.inr (Or.inl hph))
        have hstep : coordStep orc (Choice.runTask i) s =
            { s with
              delivered := s.delivered ++ [(t.rid, t.resp)],
              tasks := s.tasks.set i { t with phase := Phase.crDelete } } := by
          simp [coordStep, stepTask, hti, hph]
        rw [hstep]
        refine ⟨h.regEmpty, ?_⟩
        intro j u hju hic r hr
        rcases getq_set_cases s.tasks i j _ u hlen hju with ⟨hj, hu⟩ | ⟨hj, hju'⟩
        · subst hu
          simp [hcreate] at hic
        · rcases List.mem_append.1 hr with hold | hnew
          · exact h.waitDeliv j u hju' hic r hold
          · exfalso
            simp only [List.mem_singleton, Prod.mk.injEq] at hnew
            have heq : u.rid = t.rid := hnew.1
            have hn := tasks_rid_nodup reqs s hco hnd
            exact hj (nodup_map_index_inj GoTask.rid s.tasks hn j i u t hju' hti heq)
      | crDelete =>
        have hcreate : t.isCreate = true :=
          isCreate_of_cr_phase reqs s i t hti hco (Or.inr (Or.inr (Or.inl hph)))
        have hstep : coordStep orc (Choice.runTask i) s =
            { s with
              markers := mErase s.markers t.key,
              tasks := s.tasks.set i { t with phase := Phase.crDone } } := by
          simp [coordStep, stepTask, hti, hph]
        rw [hstep]
        refine ⟨h.regEmpty, ?_⟩
        intro j u hju hic r hr
        rcases getq_set_cases s.tasks i j _ u hlen hju with ⟨hj, hu⟩ | ⟨hj, hju'⟩
        · subst hu
          simp [hcreate] at hic
        · exact h.waitDeliv j u hju' hic r hr
      | crDone =>
        have hcreate : t.isCreate = true :=
          isCreate_of_cr_phase reqs s i t hti hco (Or.inr (Or.inr (Or.inr hph)))
        have hstep : coordStep orc (Choice.runTask i) s =
            { s with
              doneGens := t.gen :: s.doneGens,
              tasks := s.tasks.set i { t with phase := Phase.finished } } := by
          simp [coordStep, stepTask, hti, hph]
        rw [hstep]
        refine ⟨h.regEmpty, ?_⟩
        intro j u hju hic r hr
        rcases getq_set_cases s.tasks i j _ u hlen hju with ⟨hj, hu⟩ | ⟨hj, hju'⟩
        · subst hu
          simp [hcreate] at hic
        · exact h.waitDeliv j u hju' hic r hr
      | wWait =>
        have hwait : t.isCreate = false :=
          isWait_of_w_phase reqs s i t hti hco (Or.inl hph)
        by_cases hg : t.gen ∈ s.doneGens
        · have hstep : coordStep orc (Choice.runTask i) s =
              { s with tasks := s.tasks.set i { t with phase := Phase.wRespond } } := by
            simp [coordStep, stepTask, hti, hph, hg]
          rw [hstep]
          refine ⟨h.regEmpty, ?_⟩
          intro j u hju hic r hr
          rcases getq_set_cases s.tasks i j _ u hlen hju with ⟨hj, hu⟩ | ⟨hj, hju'⟩
          · subst hu
            exact h.waitDeliv i t hti hwait r hr
          · exact h.waitDeliv j u hju' hic r hr
        · have hid : coordStep orc (Choice.runTask i) s = s := by
            simp [coordStep, stepTask, hti, hph, hg]
          rw [hid]
          exact h
      | wRespond =>
        have hwait : t.isCreate = false :=
          isWait_of_w_phase reqs s i t hti hco (Or.inr hph)
        have hstep : coordStep orc (Choice.runTask i) s =
            { s with
              delivered := s.delivered ++
                [(t.rid, getByFunction s.registry t.key)],
              tasks := s.tasks.set i { t with phase := Phase.finished } } := by
          simp [coordStep, stepTask, hti, hph]
        rw [hstep]
        have hnf : getByFunction s.registry t.key = ⟨none, some FErr.notFound⟩ := by
          rw [h.regEmpty]
          rfl
        refine ⟨h.regEmpty, ?_⟩
        intro j u hju hic r hr
        rcases List.mem_append.1 hr with hold | hnew
        · rcases getq_set_cases s.tasks i j _ u hlen hju with ⟨hj, hu⟩ | ⟨hj, hju'⟩
          · subst hu
            exact h.waitDeliv i t hti hwait r hold
          · exact h.waitDeliv j u hju' hic r hold
        · simp only [List.mem_singleton, Prod.mk.injEq] at hnew
          rw [hnew.2]
          exact hnf
      | finished =>
        have hid : coordStep orc (Choice.runTask i) s = s := by
          simp [coordStep, stepTask, hti, hph]
        rw [hid]
        exact h

/-- FailInv holds in every reachable state of a never-pool execution. -/
theorem failInv_exec (orc : Nat → PipeOutcome) (reqs : List FuncServiceRequest)
    (sched : List Choice) (s : CoordState) (hco : CoordInv reqs s)
    (hnd : (reqs.map FuncServiceRequest.rid).Nodup)
    (hfail : ∀ n : Nat, orc n ≠ PipeOutcome.poolOutcome)
    (h : FailInv reqs s) : FailInv reqs (coordExec orc sched s) := by
  induction sched generalizing s with
  | nil => exact h
  | cons c cs ih =>
    exact ih _ (coordInv_step orc reqs c s hco)
      (failInv_step orc reqs c s hco hnd hfail h)

/-- GetByFunction answers with a registered handle or the not-found
error — there is no third shape and in particular no nil-nil. -/
theorem getByFunction_shape (reg : List (String × Nat)) (k : String) :
    (∃ h : Nat, getByFunction reg k = ⟨some h, none⟩) ∨
      getByFunction reg k = ⟨none, some FErr.notFound⟩ := by
  cases ha : alookup reg k with
  | some h => exact Or.inl ⟨h, by simp [getByFunction, ha]⟩
  | none => exact Or.inr (by simp [getByFunction, ha])

/-- Invariant of arbitrary executions: a wait goroutine's conduit only
ever receives a registry answer — a registered handle or the not-found
error, never a nil-nil empty success. -/
structure WaitInv (reqs : List FuncServiceRequest) (s : CoordState) : Prop where
  waitDeliv : ∀ (j : Nat) (t : GoTask), s.tasks[j]? = some t →
    t.isCreate = false →
    ∀ r : FuncServiceResponse, (t.rid, r) ∈ s.delivered →
      (∃ h : Nat, r = ⟨some h, none⟩) ∨ r = ⟨none, some FErr.notFound⟩

/-- WaitInv is preserved by every scheduled step. -/
theorem waitInv_step (orc : Nat → PipeOutcome) (reqs : List FuncServiceRequest)
    (c : Choice) (s : CoordState) (hco : CoordInv reqs s)
    (hnd : (reqs.map FuncServiceRequest.rid).Nodup)
    (h : WaitInv reqs s) : WaitInv reqs (coordStep orc c s) := by
  cases c with
  | recvReq =>
    cases hp : s.pending with
    | nil =>
      have hid : coordStep orc Choice.recvReq s = s := by
        simp [coordStep, serveCreateFuncServices, hp]
      rw [hid]
      exact h
    | cons r0 rest =>
      cases hm : alookup s.markers (cacheKey r0.funcMeta) with
      | some g =>
        have hstep : coordStep orc Choice.recvReq s =
            { s with pending := rest,
                     tasks := s.tasks ++
                       [⟨r0.rid, cacheKey r0.funcMeta, g, false, ⟨none, none⟩,
                         Phase.wWait⟩] } := by
          simp [coordStep, serveCreateFuncServices, hp, hm]
        rw [hstep]
        refine ⟨?_⟩
        intro j u hju hic r hr
        rcases getq_append_cases s.tasks _ u j hju with hold | ⟨hj, hu⟩
        · exact h.waitDeliv j u hold hic r hr
        · subst hu
          exfalso
          have hzero := pending_head_no_delivery reqs s hco hnd r0 rest hp
          have hmem := List.countP_eq_zero.1 hzero _ hr
          simp at hmem
      | none =>
        have hstep : coordStep orc Choice.recvReq s =
            { s with pending := rest,
                     markers := (cacheKey r0.funcMeta, s.nextGen) :: s.markers,
                     tasks := s.tasks ++
                       [⟨r0.rid, cacheKey r0.funcMeta, s.nextGen, true, ⟨none, none⟩,
                         Phase.crRun⟩],
                     nextGen := s.nextGen + 1 } := by
          simp [coordStep, serveCreateFuncServices, hp, hm]
        rw [hstep]
        refine ⟨?_⟩
        intro j u hju hic r hr
        rcases getq_append_cases s.tasks _ u j hju with hold | ⟨hj, hu⟩
        · exact h.waitDeliv j u hold hic r hr
        · subst hu
          simp at hic
  | runTask i =>
    cases hti : s.tasks[i]? with
    | none =>
      have hid : coordStep orc (Choice.runTask i) s = s := by
        simp [coordStep, stepTask, hti]
      rw [hid]
      exact h
    | some t =>
      have hlen : i < s.tasks.length := (List.getElem?_eq_some.1 hti).1
      cases hph : t.phase with
      | crRun =>
        have hcreate : t.isCreate = true :=
          isCreate_of_cr_phase reqs s i t hti hco (Or.inl hph)
        have hstep : coordStep orc (Choice.runTask i) s =
            { s with
              registry := (runCreation orc t.gen t.key s.registry).2,
              tasks := s.tasks.set i
                { t with resp := (runCreation orc t.gen t.key s.registry).1,
                         phase := Phase.crRespond } } := by
          simp [coordStep, stepTask, hti, hph]
        rw [hstep]
        refine ⟨?_⟩
        intro j u hju hic r hr
        rcases getq_set_cases s.tasks i j _ u hlen hju with ⟨hj, hu⟩ | ⟨hj, hju'⟩
        · subst hu
          simp [hcreate] at hic
        · exact h.waitDeliv j u hju' hic r hr
      | crRespond =>
        have hcreate : t.isCreate = true :=
          isCreate_of_cr_phase reqs s i t hti hco (Or.inr (Or.inl hph))
        have hstep : coordStep orc (Choice.runTask i) s =
            { s with
              delivered := s.delivered ++ [(t.rid, t.resp)],
              tasks := s.tasks.set i { t with phase := Phase.crDelete } } := by
          simp [coordStep, stepTask, hti, hph]
        rw [hstep]
        refine ⟨?_⟩
        intro j u hju hic r hr
        rcases getq_set_cases s.tasks i j _ u hlen hju with ⟨hj, hu⟩ | ⟨hj, hju'⟩
        · subst hu
          simp [hcreate] at hic
        · rcases List.mem_append.1 hr with hold | hnew
          · exact h.waitDeliv j u hju' hic r hold
          · exfalso
            simp only [List.mem_singleton, Prod.mk.injEq] at hnew
            have heq : u.rid = t.rid := hnew.1
            have hn := tasks_rid_nodup reqs s hco hnd
            exact hj (nodup_map_index_inj GoTask.rid s.tasks hn j i u t hju' hti heq)
      | crDelete =>
        have hcreate : t.isCreate = true :=
          isCreate_of_cr_phase reqs s i t hti hco (Or.inr (Or.inr (Or.inl hph)))
        have hstep : coordStep orc (Choice.runTask i) s =
            { s with
              markers := mErase s.markers t.key,
              tasks := s.tasks.set i { t with phase := Phase.crDone } } := by
          simp [coordStep, stepTask, hti, hph]
        rw [hstep]
        refine ⟨?_⟩
        intro j u hju hic r hr
        rcases getq_set_cases s.tasks i j _ u hlen hju with ⟨hj, hu⟩ | ⟨hj, hju'⟩
        · subst hu
          simp [hcreate] at hic
        · exact h.waitDeliv j u hju' hic r hr
      | crDone =>
        have hcreate : t.isCreate = true :=
          isCreate_of_cr_phase reqs s i t hti hco (Or.inr (Or.inr (Or.inr hph)))
        have hstep : coordStep orc (Choice.runTask i) s =
            { s with
              doneGens := t.gen :: s.doneGens,
              tasks := s.tasks.set i { t with phase := Phase.finished } } := by
          simp [coordStep, stepTask, hti, hph]
        rw [hstep]
        refine ⟨?_⟩
        intro j u hju hic r hr
        rcases getq_set_cases s.tasks i j _ u hlen hju with ⟨hj, hu⟩ | ⟨hj, hju'⟩
        · subst hu
          simp [hcreate] at hic
        · exact h.waitDeliv j u hju' hic r hr
      | wWait =>
        have hwait : t.isCreate = false :=
          isWait_of_w_phase reqs s i t hti hco (Or.inl hph)
        by_cases hg : t.gen ∈ s.doneGens
        · have hstep : coordStep orc (Choice.runTask i) s =
              { s with tasks := s.tasks.set i { t with phase := Phase.wRespond } } := by
            simp [coordStep, stepTask, hti, hph, hg]
          rw [hstep]
          refine ⟨?_⟩
          intro j u hju hic r hr
          rcases getq_set_cases s.tasks i j _ u hlen hju with ⟨hj, hu⟩ | ⟨hj, hju'⟩
          · subst hu
            exact h.waitDeliv i t hti hwait r hr
          · exact h.waitDeliv j u hju' hic r hr
        · have hid : coordStep orc (Choice.runTask i) s = s := by
            simp [coordStep, stepTask, hti, hph, hg]
          rw [hid]
          exact h
      | wRespond =>
        have hwait : t.isCreate = false :=
          isWait_of_w_phase reqs s i t hti hco (Or.inr hph)
        have hstep : coordStep orc (Choice.runTask i) s =
            { s with
              delivered := s.delivered ++
                [(t.rid, getByFunction s.registry t.key)],
              tasks := s.tasks.set i { t with phase := Phase.finished } } := by
          simp [coordStep, stepTask, hti, hph]
        rw [hstep]
        refine ⟨?_⟩
        intro j u hju hic r hr
        rcases List.mem_append.1 hr with hold | hnew
        · rcases getq_set_cases s.tasks i j _ u hlen hju with ⟨hj, hu⟩ | ⟨hj, hju'⟩
          · subst hu
            exact h.waitDeliv i t hti hwait r hold
          · exact h.waitDeliv j u hju' hic r hold
        · simp only [List.mem_singleton, Prod.mk.injEq] at hnew
          rw [hnew.2]
          exact getByFunction_shape s.registry t.key
      | finished =>
        have hid : coordStep orc (Choice.runTask i) s = s := by
          simp [coordStep, stepTask, hti, hph]
        rw [hid]
        exact h

/-- WaitInv holds in every reachable state. -/
theorem waitInv_exec (orc : Nat → PipeOutcome) (reqs : List FuncServiceRequest)
    (sched : List Choice) (s : CoordState) (hco : CoordInv reqs s)
    (hnd : (reqs.map FuncServiceRequest.rid).Nodup)
    (h : WaitInv reqs s) : WaitInv reqs (coordExec orc sched s) := by
  induction sched generalizing s with
  | nil => exact h
  | cons c cs ih =>
    exact ih _ (coordInv_step orc reqs c s hco)
      (waitInv_step orc reqs c s hco hnd h)

/-- An outcome oracle on which every creation pipeline fails. -/
def failOrc : Nat → PipeOutcome := fun _ => PipeOutcome.failOutcome (FErr.other 7)

/-- Schedule for the failed-creation scenario: a miss, a duplicate
waiter, the full failing creation goroutine, then the waiter. -/
def c4Sched : List Choice :=
  [Choice.recvReq, Choice.recvReq, Choice.runTask 0, Choice.runTask 0,
   Choice.runTask 0, Choice.runTask 0, Choice.runTask 1, Choice.runTask 1]

/-- An outcome oracle on which the first creation pipeline fails and
every later one succeeds through the pool. -/
def mixedOrc : Nat → PipeOutcome :=
  fun n => if n = 0 then PipeOutcome.failOutcome (FErr.other 7)
           else PipeOutcome.poolOutcome

/-- Schedule: r1 misses (generation 0), r2 joins it as a waiter; the
failing creation runs, responds and deletes the marker; r3 is received
in the delete/Done gap and starts generation 1, which succeeds and
registers handle 1; generation 0 then signals, and the waiter wakes and
re-reads the registry. -/
def c4CexSched : List Choice :=
  [Choice.recvReq, Choice.recvReq, Choice.runTask 0, Choice.runTask 0,
   Choice.runTask 0, Choice.recvReq, Choice.runTask 2, Choice.runTask 2,
   Choice.runTask 0, Choice.runTask 1, Choice.runTask 1, Choice.runTask 2,
   Choice.runTask 2]

/-- C4 counterexample: the waiter joined generation 0, whose pipeline
failed (its direct requester received the error), the release signal of
generation 0 fired — and the waiter resolved to the successful handle
of a different creation of the same key, not to a WaitFailed-class
error. -/
theorem waiter_of_failed_creation_gets_foreign_handle :
    mixedOrc 0 = PipeOutcome.failOutcome (FErr.other 7) ∧
    (coordExec mixedOrc c4CexSched (initState raceReqs3)).tasks[1]? =
      some ⟨2, cacheKey demoMeta, 0, false, ⟨none, none⟩, Phase.finished⟩ ∧
    (0 : Nat) ∈ (coordExec mixedOrc c4CexSched (initState raceReqs3)).doneGens ∧
    (coordExec mixedOrc c4CexSched (initState raceReqs3)).delivered =
      [(1, ⟨none, some (FErr.other 7)⟩), (3, ⟨some 1, none⟩),
       (2, ⟨some 1, none⟩)] := by
  decide

/-- C4 amended: once its generation's release signal has fired a waiter
is not blocked — its wg.Wait statement is enabled and its final
statement delivers exactly the registry's answer for the identity at
that moment; every response a waiter's conduit ever receives is such a
registry answer: a registered service handle (possibly of a different
creation of the same key) or the distinct not-found (WaitFailed-class)
error, and never an empty success with a nil error; and when no
pipeline run succeeds through the pool — in particular when every
creation fails — the answer is exactly the not-found error. -/
theorem waiter_outcome_after_release (orc : Nat → PipeOutcome)
    (reqs : List FuncServiceRequest) (sched : List Choice)
    (hnd : (reqs.map FuncServiceRequest.rid).Nodup) :
    (∀ (j : Nat) (t : GoTask),
      (coordExec orc sched (initState reqs)).tasks[j]? = some t →
      t.isCreate = false →
      ∀ r : FuncServiceResponse,
        (t.rid, r) ∈ (coordExec orc sched (initState reqs)).delivered →
        ((∃ h : Nat, r = ⟨some h, none⟩) ∨ r = ⟨none, some FErr.notFound⟩) ∧
          r ≠ ⟨none, none⟩) ∧
    (∀ (j : Nat) (t : GoTask),
      (coordExec orc sched (initState reqs)).tasks[j]? = some t →
      t.phase = Phase.wWait →
      t.gen ∈ (coordExec orc sched (initState reqs)).doneGens →
      (coordStep orc (Choice.runTask j)
        (coordExec orc sched (initState reqs))).tasks[j]? =
        some { t with phase := Phase.wRespond }) ∧
    (∀ (j : Nat) (t : GoTask),
      (coordExec orc sched (initState reqs)).tasks[j]? = some t →
      t.phase = Phase.wRespond →
      (coordStep orc (Choice.runTask j)
        (coordExec orc sched (initState reqs))).delivered =
        (coordExec orc sched (initState reqs)).delivered ++
          [(t.rid, getByFunction
            (coordExec orc sched (initState reqs)).registry t.key)]) ∧
    ((∀ n : Nat, orc n ≠ PipeOutcome.poolOutcome) →
      ∀ (j : Nat) (t : GoTask),
        (coordExec orc sched (initState reqs)).tasks[j]? = some t →
        t.isCreate = false →
        ∀ r : FuncServiceResponse,
          (t.rid, r) ∈ (coordExec orc sched (initState reqs)).delivered →
          r = ⟨none, some FErr.notFound⟩) := by
  have hwinit : WaitInv reqs (initState reqs) := by
    refine ⟨?_⟩
    intro j t ht
    simp [initState] at ht
  have hwi := waitInv_exec orc reqs sched (initState reqs) (coordInv_init reqs)
    hnd hwinit
  refine ⟨?_, ?_, ?_, ?_⟩
  · intro j t hjt hic r hr
    have hval := hwi.waitDeliv j t hjt hic r hr
    refine ⟨hval, ?_⟩
    rcases hval with ⟨hd, hh⟩ | hh <;> rw [hh] <;> intro hcontra <;>
      simp at hcontra
  · intro j t hjt hphw hg
    have hlen : j < (coordExec orc sched (initState reqs)).tasks.length :=
      (List.getElem?_eq_some.1 hjt).1
    have hstep : coordStep orc (Choice.runTask j) (coordExec orc sched (initState reqs)) =
        { coordExec orc sched (initState reqs) with
          tasks := (coordExec orc sched (initState reqs)).tasks.set j
            { t with phase := Phase.wRespond } } := by
      simp [coordStep, stepTask, hjt, hphw, hg]
    rw [hstep]
    exact List.getElem?_set_eq_of_lt _ hlen
  · intro j t hjt hphw
    have hstep : coordStep orc (Choice.runTask j) (coordExec orc sched (initState reqs)) =
        { coordExec orc sched (initState reqs) with
          delivered := (coordExec orc sched (initState reqs)).delivered ++
            [(t.rid, getByFunction (coordExec orc sched (initState reqs)).registry
              t.key)],
          tasks := (coordExec orc sched (initState reqs)).tasks.set j
            { t with phase := Phase.finished } } := by
      simp [coordStep, stepTask, hjt, hphw]
    rw [hstep]
  · intro hfail
    have hinit : FailInv reqs (initState reqs) := by
      refine ⟨rfl, ?_⟩
      intro j t ht
      simp [initState] at ht
    have hfi := failInv_exec orc reqs sched (initState reqs) (coordInv_init reqs)
      hnd hfail hinit
    intro j t hjt hic r hr
    exact hfi.waitDeliv j t hjt hic r hr

/-- C4 amended witness: two requests for one function with the creation
failing, run to completion — the waiter's conduit holds exactly the
not-found error. -/
theorem waiter_outcome_after_release_witness :
    (raceReqs2.map FuncServiceRequest.rid).Nodup ∧
    (∀ n : Nat, failOrc n ≠ PipeOutcome.poolOutcome) ∧
    (∀ (j : Nat) (t : GoTask),
      (coordExec failOrc c4Sched (initState raceReqs2)).tasks[j]? = some t →
      t.isCreate = false →
      ∀ r : FuncServiceResponse,
        (t.rid, r) ∈ (coordExec failOrc c4Sched (initState raceReqs2)).delivered →
        r = ⟨none, some FErr.notFound⟩) :=
  ⟨by decide, fun _ h => by simp [failOrc] at h,
    (waiter_outcome_after_release failOrc raceReqs2 c4Sched (by decide)).2.2.2
      (fun _ h => by simp [failOrc] at h)⟩

/-- C5: a request received while a marker exists for its key spawns a
wait goroutine bound to that very marker's generation, delivering
nothing at admission time; the wait goroutine's wg.Wait statement is a
no-op until the generation's release signal has fired; once it has, the
goroutine advances and its final statement delivers exactly the result
of re-querying the external function-service cache by the function
identity at delivery time — a value independent of the triggering
creation goroutine's private resp field. -/
theorem duplicate_waits_then_requeries_registry (orc : Nat → PipeOutcome)
    (s : CoordState) :
    (∀ (r : FuncServiceRequest) (rest : List FuncServiceRequest) (g : Nat),
      s.pending = r :: rest →
      alookup s.markers (cacheKey r.funcMeta) = some g →
      coordStep orc Choice.recvReq s =
        { s with pending := rest,
                 tasks := s.tasks ++
                   [⟨r.rid, cacheKey r.funcMeta, g, false, ⟨none, none⟩,
                     Phase.wWait⟩] }) ∧
    (∀ (j : Nat) (t : GoTask), s.tasks[j]? = some t →
      t.phase = Phase.wWait → t.gen ∉ s.doneGens →
      coordStep orc (Choice.runTask j) s = s) ∧
    (∀ (j : Nat) (t : GoTask), s.tasks[j]? = some t →
      t.phase = Phase.wWait → t.gen ∈ s.doneGens →
      coordStep orc (Choice.runTask j) s =
        { s with tasks := s.tasks.set j { t with phase := Phase.wRespond } }) ∧
    (∀ (j : Nat) (t : GoTask), s.tasks[j]? = some t →
      t.phase = Phase.wRespond →
      coordStep orc (Choice.runTask j) s =
        { s with
          delivered := s.delivered ++
            [(t.rid, getByFunction s.registry t.key)],
          tasks := s.tasks.set j { t with phase := Phase.finished } }) := by
  refine ⟨?_, ?_, ?_, ?_⟩
  · intro r rest g hp hm
    simp [coordStep, serveCreateFuncServices, hp, hm]
  · intro j t hjt hph hg
    simp [coordStep, stepTask, hjt, hph, hg]
  · intro j t hjt hph hg
    simp [coordStep, stepTask, hjt, hph, hg]
  · intro j t hjt hph
    simp [coordStep, stepTask, hjt, hph]

/-- A concrete state with one pending duplicate request: a marker for
its key is held by generation 0. -/
def dupState : CoordState :=
  ⟨[⟨2, demoMeta⟩], [(cacheKey demoMeta, 0)],
   [⟨1, cacheKey demoMeta, 0, true, ⟨none, none⟩, Phase.crRespond⟩],
   [], [], 1, []⟩

/-- C5 witness: admitting the concrete duplicate spawns the wait
goroutine bound to generation 0. -/
theorem duplicate_waits_then_requeries_registry_witness :
    coordStep raceOrc Choice.recvReq dupState =
      { dupState with
        pending := [],
        tasks := dupState.tasks ++
          [⟨2, cacheKey demoMeta, 0, false, ⟨none, none⟩, Phase.wWait⟩] } :=
  (duplicate_waits_then_requeries_registry raceOrc dupState).1
    ⟨2, demoMeta⟩ [] 0 rfl (by decide)

end Fission
